import Mathlib

/-!
yeetfile: quota ledger, membership reconciliation, request dispatcher and
transfer handlers.

A shallow embedding of `backend/db/users.go`, `web/server/router.go`,
`web/server/server.go`, `src/server/download.go`, `backend/utils/misc.go` and
`web/server/auth/signup.go`.

Modelling conventions:

* The `users` table is a list of rows; only the columns that the embedded
  statements read or write are kept.  An `UPDATE ... WHERE c SET f` maps `f` over
  the rows satisfying `c`; `RETURNING` yields the updated rows in table order and
  `QueryRow(...).Scan` reads the first of them (or reports `sql.ErrNoRows`, in
  which case the Go destination variables keep their zero value).
* Column and Go integers are unbounded `Int`s: PostgreSQL raises an error on
  integer overflow instead of wrapping, so an overflowing statement is one of the
  database errors, which are modelled by an explicit fault argument.
* `time.Time` is a wall-clock reading (year, month, day, nanosecond of the day)
  in one fixed-offset location; every value denotes an existing calendar day, as
  every Go `time.Time` does.
* `CheckMemberships` reads the clock several times; the readings are taken to be
  one instant `now`.  The Go map `upgradeMap` is an association list, visited in
  order of first insertion.  The array literal built for `id=ANY($4)` is
  membership of the row id in the list of ids.
-/

namespace YeetFile

/-! ## Configuration (`config.YeetFileConfig`) -/

/-- The two fields of `config.YeetFileConfig` read by the ledger. -/
structure Config where
  DefaultUserStorage : Int
  DefaultUserSend : Int
deriving DecidableEq, Repr

/-! ## Calendar time (`time.Time`) -/

/-- Gregorian leap-year rule. -/
def isLeap (y : Int) : Bool :=
  y % 4 == 0 && (y % 100 != 0 || y % 400 == 0)

/-- Number of days of month `m` (1 = January) in year `y`. -/
def daysIn (y : Int) (m : Nat) : Nat :=
  if m = 2 then (if isLeap y then 29 else 28)
  else if m = 4 ∨ m = 6 ∨ m = 9 ∨ m = 11 then 30
  else 31

/-- Nanoseconds in a civil day. -/
def nsPerDay : Nat := 86400 * 1000000000

/-- A `time.Time` value: a calendar day that exists plus the time of day. -/
structure Time where
  year : Int
  month : Nat
  day : Nat
  nsec : Nat
  month_ok : 1 ≤ month ∧ month ≤ 12
  day_ok : 1 ≤ day ∧ day ≤ daysIn year month
  nsec_ok : nsec < nsPerDay
deriving DecidableEq

/-- `t.Day()`. -/
def Time.Day (t : Time) : Int := t.day

/-- `t.Month()`. -/
def Time.Month (t : Time) : Int := t.month

/-- `t.AddDate(0, 0, 1)`: the same time of day on the next calendar day. -/
def Time.AddDate1 (t : Time) : Time :=
  if h : t.day < daysIn t.year t.month then
    { year := t.year, month := t.month, day := t.day + 1, nsec := t.nsec,
      month_ok := t.month_ok, day_ok := ⟨by omega, by omega⟩, nsec_ok := t.nsec_ok }
  else if h12 : t.month < 12 then
    { year := t.year, month := t.month + 1, day := 1, nsec := t.nsec,
      month_ok := ⟨by omega, by omega⟩,
      day_ok := ⟨le_refl 1, by unfold daysIn; split_ifs <;> omega⟩,
      nsec_ok := t.nsec_ok }
  else
    { year := t.year + 1, month := 1, day := 1, nsec := t.nsec,
      month_ok := ⟨by omega, by omega⟩,
      day_ok := ⟨le_refl 1, by unfold daysIn; split_ifs <;> omega⟩,
      nsec_ok := t.nsec_ok }

/-- `t.Add(time.Hour * 72)`: in a fixed-offset location, three calendar days
later at the same time of day. -/
def Time.Add72h (t : Time) : Time := t.AddDate1.AddDate1.AddDate1

/-- `t.Before(u)`: the instant `t` is strictly earlier than the instant `u`. -/
def Time.Before (t u : Time) : Bool :=
  decide (t.year < u.year) ||
  (t.year == u.year && (decide (t.month < u.month) ||
  (t.month == u.month && (decide (t.day < u.day) ||
  (t.day == u.day && decide (t.nsec < u.nsec))))))

/-! ## The `users` table -/

/-- One row of `users`, restricted to the columns used by the ledger. -/
structure UserRow where
  id : String
  sub_tag : String
  member_expiration : Time
  last_upgraded_month : Int
  storage_available : Int
  storage_used : Int
  send_available : Int
  send_used : Int
  bandwidth : Int
deriving DecidableEq

/-- The `users` table. -/
abbrev Table := List UserRow

/-- Errors returned by the ledger operations. -/
inductive Error where
  | db (msg : String)
  | UserSendExceeded
  | UserStorageExceeded
deriving DecidableEq, Repr

/-- `UPDATE users SET ... WHERE cond RETURNING ...`: the new table and the
updated rows, in table order. -/
def updateReturning (db : Table) (cond : UserRow → Bool) (set : UserRow → UserRow) :
    Table × List UserRow :=
  (db.map (fun u => if cond u then set u else u), (db.filter cond).map set)

/-- First row of the table carrying the given id. -/
def findUser (db : Table) (id : String) : Option UserRow :=
  db.find? (fun u => u.id == id)

/-! ## Quota charges -/

/-- The `SET` clause of `UpdateStorageUsed`:
`storage_used = CASE WHEN storage_used + $1 < 0 THEN 0 ELSE storage_used + $1 END`. -/
def chargeStorage (amount : Int) (u : UserRow) : UserRow :=
  { u with storage_used :=
      if u.storage_used + amount < 0 then 0 else u.storage_used + amount }

/-- The `SET` clause of `UpdateUserSendUsed`:
`send_used = CASE WHEN send_used + $1 < 0 THEN 0 ELSE send_used + $1 END`. -/
def chargeSend (size : Int) (u : UserRow) : UserRow :=
  { u with send_used :=
      if u.send_used + size < 0 then 0 else u.send_used + size }

/-- `UpdateStorageUsed(userID, amount)`.  `fault = some e` is a failing database
call (an error other than `sql.ErrNoRows`); the statement then has no effect. -/
def UpdateStorageUsed (cfg : Config) (fault : Option String) (db : Table)
    (userID : String) (amount : Int) : Table × Option Error :=
  match fault with
  | some e => (db, some (Error.db e))
  | none =>
    let res := updateReturning db
      (fun u => u.id == userID && decide (u.storage_available > 0))
      (chargeStorage amount)
    let scanned : Int × Int :=
      match res.2.head? with
      | some r => (r.storage_used, r.storage_available)
      | none => (0, 0)
    if scanned.1 > scanned.2 ∧ amount > 0 ∧ cfg.DefaultUserStorage > 0 then
      (res.1, some Error.UserStorageExceeded)
    else
      (res.1, none)

/-- `UpdateUserSendUsed(id, size)`, with the same fault convention. -/
def UpdateUserSendUsed (fault : Option String) (db : Table)
    (id : String) (size : Int) : Table × Option Error :=
  match fault with
  | some e => (db, some (Error.db e))
  | none =>
    let res := updateReturning db
      (fun u => u.id == id && decide (u.send_available > 0))
      (chargeSend size)
    let scanned : Int × Int :=
      match res.2.head? with
      | some r => (r.send_used, r.send_available)
      | none => (0, 0)
    if scanned.1 > scanned.2 then
      (res.1, some Error.UserSendExceeded)
    else
      (res.1, none)

/-- The row on which the statement of `UpdateStorageUsed` acts and which it
returns: the first row with the given id and `storage_available > 0`. -/
def chargedStorageRow (db : Table) (userID : String) : Option UserRow :=
  db.find? (fun u => u.id == userID && decide (u.storage_available > 0))

/-- The row on which the statement of `UpdateUserSendUsed` acts and which it
returns: the first row with the given id and `send_available > 0`. -/
def chargedSendRow (db : Table) (id : String) : Option UserRow :=
  db.find? (fun u => u.id == id && decide (u.send_available > 0))

/-- One ledger call in a sequence of storage charges. -/
structure StorageCall where
  fault : Option String
  userID : String
  amount : Int

/-- Runs a sequence of `UpdateStorageUsed` calls, discarding the return values. -/
def runStorageCalls (cfg : Config) (db : Table) (calls : List StorageCall) : Table :=
  calls.foldl (fun t c => (UpdateStorageUsed cfg c.fault t c.userID c.amount).1) db

/-- `UpdateBandwidth(userID, amount)`, with the fault convention of
`UpdateStorageUsed`; the returned error is the one of `db.Exec`. -/
def UpdateBandwidth (cfg : Config) (fault : Option String) (db : Table)
    (userID : String) (amount : Int) : Table × Option Error :=
  if cfg.DefaultUserStorage < 0 then (db, none)
  else
    match fault with
    | some e => (db, some (Error.db e))
    | none =>
      (db.map (fun u =>
        if u.id == userID then { u with bandwidth := u.bandwidth - amount } else u), none)

/-! ## Membership reconciliation -/

/-- `ExpDateRollover(now, exp)`. -/
def ExpDateRollover (now exp : Time) : Bool :=
  if exp.Day ≤ 28 then false
  else decide (exp.Day > now.Day) && decide (now.AddDate1.Month > now.Month)

/-- The refresh condition tested by `CheckMemberships` for an active member:
`now.Day() == exp.Day() || ExpDateRollover(now, exp)`. -/
def refreshDue (now exp : Time) : Bool :=
  now.Day == exp.Day || ExpDateRollover now exp

/-- The lapse test of `CheckMemberships`: `exp.Add(time.Hour * 72).Before(now)`. -/
def lapsed (now exp : Time) : Bool :=
  exp.Add72h.Before now

/-- The Go map `upgradeMap`, kept as an association list in order of first
insertion of each subscription tag. -/
abbrev UpgradeMap := List (String × List String)

/-- `upgradeMap[subTag] = append(upgradeMap[subTag], id)`. -/
def appendUpgrade : UpgradeMap → String → String → UpgradeMap
  | [], tag, id => [(tag, [id])]
  | (t, ids) :: rest, tag, id =>
    if t = tag then (t, ids ++ [id]) :: rest
    else (t, ids) :: appendUpgrade rest tag id

/-- The id occurs in the upgrade set of the given subscription tag. -/
def inUpgradeSet (m : UpgradeMap) (tag id : String) : Prop :=
  ∃ ids, (tag, ids) ∈ m ∧ id ∈ ids

/-- Database failures that `CheckMemberships` can meet: the `SELECT`, the
`rows.Scan` of the row at a given position, the revert `UPDATE`, and the upgrade
`UPDATE` of a given subscription tag. -/
structure Faults where
  query : Bool
  scan : Nat → Bool
  revertExec : Bool
  upgradeExec : String → Bool

/-- No database failure at all. -/
def Faults.none : Faults :=
  { query := false, scan := fun _ => false, revertExec := false,
    upgradeExec := fun _ => false }

/-- The `for rows.Next()` loop of `CheckMemberships` from row position `i` on,
started with the given `revertIDs` and `upgradeMap`; `none` when a `rows.Scan`
fails, which makes `CheckMemberships` return at once. -/
def scanRows (faults : Faults) (now : Time) :
    Nat → List UserRow → List String → UpgradeMap → Option (List String × UpgradeMap)
  | _, [], revertIDs, upgradeMap => some (revertIDs, upgradeMap)
  | i, u :: rest, revertIDs, upgradeMap =>
    if faults.scan i then none
    else if lapsed now u.member_expiration then
      scanRows faults now (i + 1) rest (revertIDs ++ [u.id]) upgradeMap
    else if refreshDue now u.member_expiration then
      scanRows faults now (i + 1) rest revertIDs (appendUpgrade upgradeMap u.sub_tag u.id)
    else
      scanRows faults now (i + 1) rest revertIDs upgradeMap

/-- Rows returned by `SELECT ... WHERE last_upgraded_month != $1`. -/
def selectedRows (now : Time) (db : Table) : List UserRow :=
  db.filter (fun u => u.last_upgraded_month != now.Month)

/-- The revert set and the upgrade sets computed by `CheckMemberships` before it
writes anything; `none` when the query or a scan fails. -/
def membershipSets (faults : Faults) (now : Time) (db : Table) :
    Option (List String × UpgradeMap) :=
  if faults.query then none
  else scanRows faults now 0 (selectedRows now db) [] []

/-- The closure `upgradeFunc` of `CheckMemberships`; the Boolean result tells
whether it returned an error.  `WHERE id=ANY($4)` is membership of the id in
`ids`. -/
def upgradeFunc (execFault : Bool) (now : Time) (db : Table) (ids : List String)
    (sendAvailable storageAvailable : Int) : Table × Bool :=
  if ids.isEmpty then (db, false)
  else if execFault then (db, true)
  else
    (db.map (fun u =>
      if ids.contains u.id then
        { u with send_used := 0, send_available := sendAvailable,
                 storage_available := storageAvailable,
                 last_upgraded_month := now.Month }
      else u), false)

/-- A product of the subscription catalogue, as read by `CheckMemberships`. -/
structure Product where
  SendGBReal : Int
  StorageGBReal : Int
deriving DecidableEq, Repr

/-- The `for productTag, ids := range upgradeMap` loop. -/
def upgradeAll (getProductByTag : String → Option Product) (faults : Faults) (now : Time)
    (upgradeMap : UpgradeMap) (db : Table) : Table :=
  upgradeMap.foldl (fun t entry =>
    match getProductByTag entry.1 with
    | Option.none => t
    | some product =>
      (upgradeFunc (faults.upgradeExec entry.1) now t entry.2
        product.SendGBReal product.StorageGBReal).1) db

/-- `CheckMemberships()`, run at time `now` on table `db`.  The catalogue lookup
`subscriptions.GetProductByTag` is a parameter (`none` is its error result). -/
def CheckMemberships (cfg : Config) (getProductByTag : String → Option Product)
    (faults : Faults) (now : Time) (db : Table) : Table :=
  match membershipSets faults now db with
  | Option.none => db
  | some (revertIDs, upgradeMap) =>
    let reverted := (upgradeFunc faults.revertExec now db revertIDs
      cfg.DefaultUserSend cfg.DefaultUserStorage).1
    upgradeAll getProductByTag faults now upgradeMap reverted

/-- A row transformation of the kind `CheckMemberships` performs at time `now`:
it keeps id, subscription tag and expiration, it either leaves a row as it is or
stamps it with the month of `now`, and it keeps that stamp. -/
def rowStep (now : Time) (g : UserRow → UserRow) : Prop :=
  ∀ u, (g u).id = u.id ∧ (g u).sub_tag = u.sub_tag ∧
    (g u).member_expiration = u.member_expiration ∧
    (g u = u ∨ (g u).last_upgraded_month = now.Month) ∧
    (u.last_upgraded_month = now.Month → (g u).last_upgraded_month = now.Month)

/-- The upgrade `UPDATE` for this subscription tag takes effect: the catalogue
knows the tag and the statement does not fail. -/
def effectiveTag (getProductByTag : String → Option Product) (faults : Faults)
    (tag : String) : Prop :=
  (∃ product, getProductByTag tag = some product) ∧ faults.upgradeExec tag = false

/-! ## Request dispatcher (`web/server/router.go`)

Go strings are modelled by Lean strings; `len` is the length in bytes of the
UTF-8 encoding.  An index out of range is the result `none`. -/

/-- `strings.Split(s, "/")` on the characters of `s`. -/
def splitSlash : List Char → List (List Char)
  | [] => [[]]
  | c :: cs =>
    if c = '/' then [] :: splitSlash cs
    else
      match splitSlash cs with
      | [] => [[c]]
      | seg :: rest => (c :: seg) :: rest

/-- `strings.Split(s, "/")`. -/
def Split (s : String) : List String :=
  (splitSlash s.data).map String.mk

/-- Modelled from the spec: `utils.Contains` of package `yeetfile/web/utils` is
not among the sources; the dispatcher excludes wildcard matches "that collide
with any registered reserved top-level prefix", so it is membership of the
string in the list. -/
def Contains (list : List String) (s : String) : Bool :=
  list.contains s

/-- The `for i, part := range parts` loop of `matchPath`, from index `i` on. -/
def matchLoop (path : String) (segments : List String) : Nat → List String → Option Bool
  | _, [] => some true
  | i, part :: rest =>
    if part = "*" ∧ path.utf8ByteSize > 1 then matchLoop path segments (i + 1) rest
    else
      match segments[i]? with
      | none => none
      | some seg => if part ≠ seg then some false else matchLoop path segments (i + 1) rest

/-- `(r *router) matchPath(pattern, path)` for a router whose reserved list is
`reserved`. -/
def matchPath (reserved : List String) (pattern path : String) : Option Bool :=
  let parts := Split pattern
  let segments := Split path
  match parts[1]?, segments[1]? with
  | some p1, some s1 =>
    let isWildcard := p1 == "*"
    let isEndpoint := Contains reserved s1
    if parts.length ≠ segments.length ∨ (isWildcard = true ∧ isEndpoint = true) then some false
    else matchLoop path segments 0 parts
  | _, _ => none

/-- A key of the `routes` map. -/
structure Route where
  Path : String
  Method : String
deriving DecidableEq, Repr

/-- What `ServeHTTP` did with a request: the handlers it invoked, in order, and
whether it answered with `http.NotFound`. -/
structure Served (H : Type) where
  invoked : List H
  notFound : Bool
deriving DecidableEq, Repr

/-- `(r *router) ServeHTTP(w, req)`; `routes` lists the entries of the map in the
order in which this `range` visits them. -/
def ServeHTTP {H : Type} (reserved : List String) (method path : String) :
    List (Route × H) → Option (Served H)
  | [] => some { invoked := [], notFound := true }
  | (el, handler) :: rest =>
    match matchPath reserved el.Path path with
    | none => none
    | some m =>
      if m = true ∧ el.Method = method then some { invoked := [handler], notFound := false }
      else ServeHTTP reserved method path rest

/-- The handlers registered by `Run`. -/
inductive Handler where
  | home | uploadInit | uploadData | downloadHTML | download | downloadChunk
  | signup | signupHTML | verify | fileHandler
deriving DecidableEq, Repr

/-- The routes registered by `Run`, in source order. -/
def runRoutes : List (Route × Handler) :=
  [ (⟨"/", "GET"⟩, Handler.home),
    (⟨"/u", "POST"⟩, Handler.uploadInit),
    (⟨"/u/*/*", "POST"⟩, Handler.uploadData),
    (⟨"/*", "GET"⟩, Handler.downloadHTML),
    (⟨"/d/*", "GET"⟩, Handler.download),
    (⟨"/d/*/*", "GET"⟩, Handler.downloadChunk),
    (⟨"/signup", "POST"⟩, Handler.signup),
    (⟨"/signup", "GET"⟩, Handler.signupHTML),
    (⟨"/verify", "GET"⟩, Handler.verify),
    (⟨"/static/*/*", "GET"⟩, Handler.fileHandler) ]

/-- The reserved list of the router built by `Run`: the struct literal sets only
`routes`, so the slice is nil. -/
def runReserved : List String := []

/-! ## Download and upload handlers (`web/server/server.go`)

The handlers call functions of packages that are not among the sources
(`yeetfile/db`, `yeetfile/utils`, the B2 client).  Those collaborators are
parameters; a handler is modelled by its response and by the list of the
state-changing calls it makes, in order. -/

/-- The fields of the metadata row read by `downloadChunk`. -/
structure FileMetadata where
  ID : String
  B2ID : String
  Length : Int
deriving DecidableEq, Repr

/-- Collaborators of `downloadChunk`: `strconv.Atoi` (its error is discarded),
`db.RetrieveMetadata`, `DownloadFile`, the date string of `db.GetFileExpiry` and
the value returned by `db.DecrementDownloads`. -/
structure DownloadEnv where
  Atoi : String → Int
  RetrieveMetadata : String → FileMetadata
  DownloadFile : String → Int → Int → Bool × List Nat
  GetFileExpiry : String → String
  DecrementDownloads : String → Int

/-- State-changing calls made by `downloadChunk`. -/
inductive DownloadCall where
  | DecrementDownloads (id : String)
  | DeleteFileByID (id : String)
deriving DecidableEq, Repr

/-- Response of `downloadChunk` (`message` is the text sent by `http.Error`, `body`
the bytes sent by `w.Write`) and the calls it made. -/
structure ChunkResult where
  status : Nat
  message : String
  downloadsHeader : Option Int
  dateHeader : Option String
  body : List Nat
  calls : List DownloadCall
deriving DecidableEq, Repr

/-- `downloadChunk(w, req)` for `req.URL.Path = path`. -/
def downloadChunk (env : DownloadEnv) (path : String) : ChunkResult :=
  let segments := Split path
  if segments.length < 3 then
    { status := 400, message := "Invalid path\n", downloadsHeader := none,
      dateHeader := none, body := [], calls := [] }
  else
    let id := segments.getD (segments.length - 2) ""
    let chunk := env.Atoi (segments.getD (segments.length - 1) "")
    let metadata := env.RetrieveMetadata id
    let dl := env.DownloadFile metadata.B2ID metadata.Length chunk
    if dl.1 = true then
      let exp := env.GetFileExpiry metadata.ID
      let rem := env.DecrementDownloads metadata.ID
      { status := 200, message := "",
        downloadsHeader := if rem ≥ 0 then some rem else none,
        dateHeader := some exp,
        body := dl.2,
        calls := DownloadCall.DecrementDownloads metadata.ID ::
          (if rem = 0 then [DownloadCall.DeleteFileByID metadata.ID] else []) }
    else
      { status := 200, message := "", downloadsHeader := none, dateHeader := none,
        body := dl.2, calls := [] }

/-- The fields of `shared.UploadMetadata`. -/
structure UploadMetadata where
  Name : String
  Chunks : Int
  Salt : List Nat
  Downloads : Int
  Expiration : String
deriving DecidableEq, Repr

/-- Result of `InitB2Upload` / `InitLargeB2Upload`; `ref` is the `BucketID` of
the former and the `FileID` of the latter. -/
structure B2Info where
  UploadURL : String
  AuthorizationToken : String
  ref : String
deriving DecidableEq, Repr

/-- Collaborators of `uploadInit`: the id issued by `db.NewMetadata`,
`utils.StrToDuration`, and the two B2 initialisations (`none` is their error). -/
structure UploadEnv where
  NewMetadata : Int → String → List Nat → String
  StrToDuration : String → Int
  InitB2Upload : Option B2Info
  InitLargeB2Upload : String → Option B2Info

/-- Calls made by `uploadInit`.  `SetFileExpiry id downloads exp` stands for
`db.SetFileExpiry(id, downloads, time.Now().Add(exp).UTC())`, and
`UpdateUploadValues id ...` for the method called on the row that
`db.InsertNewUpload(id)` returned. -/
inductive UploadCall where
  | NewMetadata (chunks : Int) (name : String) (salt : List Nat)
  | InsertNewUpload (id : String)
  | SetFileExpiry (id : String) (downloads : Int) (exp : Int)
  | InitB2Upload
  | InitLargeB2Upload (name : String)
  | UpdateUploadValues (id : String) (uploadURL token ref : String)
deriving DecidableEq, Repr

/-- Response of `uploadInit` and the calls it made. -/
structure UploadResult where
  status : Nat
  body : String
  calls : List UploadCall
deriving DecidableEq, Repr

/-- A call that requests an upload target from the backend. -/
def UploadCall.isInit : UploadCall → Bool
  | UploadCall.InitB2Upload => true
  | UploadCall.InitLargeB2Upload _ => true
  | _ => false

/-- `uploadInit(w, req)`; `decoded` is the result of decoding the request body
(`none` when `decoder.Decode` fails). -/
def uploadInit (env : UploadEnv) (decoded : Option UploadMetadata) : UploadResult :=
  match decoded with
  | none => { status := 400, body := "Invalid request body\n", calls := [] }
  | some meta =>
    let id := env.NewMetadata meta.Chunks meta.Name meta.Salt
    let exp := env.StrToDuration meta.Expiration
    let before : List UploadCall :=
      [UploadCall.NewMetadata meta.Chunks meta.Name meta.Salt,
       UploadCall.InsertNewUpload id,
       UploadCall.SetFileExpiry id meta.Downloads exp]
    if meta.Chunks = 1 then
      match env.InitB2Upload with
      | none =>
        { status := 400, body := "Unable to init file\n",
          calls := before ++ [UploadCall.InitB2Upload] }
      | some info =>
        { status := 200, body := id,
          calls := before ++ [UploadCall.InitB2Upload,
            UploadCall.UpdateUploadValues id info.UploadURL info.AuthorizationToken info.ref] }
    else
      match env.InitLargeB2Upload meta.Name with
      | none =>
        { status := 400, body := "Unable to init file\n",
          calls := before ++ [UploadCall.InitLargeB2Upload meta.Name] }
      | some info =>
        { status := 200, body := id,
          calls := before ++ [UploadCall.InitLargeB2Upload meta.Name,
            UploadCall.UpdateUploadValues id info.UploadURL info.AuthorizationToken info.ref] }

/-! ## Ranged download (`src/server/download.go`) -/

/-- The framing constants of package `yeetfile/src/utils`, which is not among the
sources, and `secretbox.Overhead`. -/
structure ChunkConsts where
  KEY_SIZE : Int
  NONCE_SIZE : Int
  BUFFER_SIZE : Int
  Overhead : Int
deriving DecidableEq, Repr

/-- A call `B2PartialDownloadById(id, begin, end)`. -/
structure RangedRead where
  first : Int
  last : Int
deriving DecidableEq, Repr

/-- The read made by `TestDownload` before the loop, for the salt. -/
def saltRead (c : ChunkConsts) (length : Int) : RangedRead :=
  { first := length - c.KEY_SIZE, last := length }

/-- The reads made by the first `fuel` iterations of the `for` loop of
`TestDownload`, entered with offset `start`.  `DecryptChunk first last` is the
second result of `utils.DecryptChunk` on the data fetched by that read. -/
def downloadLoop (c : ChunkConsts) (length : Int) (DecryptChunk : Int → Int → Int) :
    Nat → Int → List RangedRead
  | 0, _ => []
  | fuel + 1, start =>
    if start < length - c.KEY_SIZE - 1 then
      let chunkSize := c.NONCE_SIZE + c.BUFFER_SIZE + c.Overhead + start
      let chunkSize :=
        if start + chunkSize > length - c.KEY_SIZE - 1 then length - c.KEY_SIZE - 1
        else chunkSize
      { first := start, last := chunkSize } ::
        downloadLoop c length DecryptChunk fuel (DecryptChunk start chunkSize)
    else []

/-- All reads of `TestDownload` within `fuel` loop iterations, for an object of
the given length; `deriveOk = false` is the early return after `DeriveKey`. -/
def TestDownload (c : ChunkConsts) (length : Int) (deriveOk : Bool)
    (DecryptChunk : Int → Int → Int) (fuel : Nat) : List RangedRead :=
  saltRead c length ::
    (if deriveOk then downloadLoop c length DecryptChunk fuel 0 else [])

/-! ## Utilities (`backend/utils/misc.go`) and signup (`web/server/auth/signup.go`)

Indexing a Go string yields bytes of its UTF-8 encoding; `goBytes` lists them.
A panic (index out of range) is the result `none`. -/

/-- UTF-8 encoding of a code point. -/
def utf8EncodeNat (c : Nat) : List Nat :=
  if c ≤ 0x7f then [c]
  else if c ≤ 0x7ff then [0xc0 + c / 64, 0x80 + c % 64]
  else if c ≤ 0xffff then [0xe0 + c / 4096, 0x80 + (c / 64) % 64, 0x80 + c % 64]
  else [0xf0 + c / 262144, 0x80 + (c / 4096) % 64, 0x80 + (c / 64) % 64, 0x80 + c % 64]

/-- The bytes of a Go string. -/
def goBytesOf : List Char → List Nat
  | [] => []
  | c :: cs => utf8EncodeNat c.toNat ++ goBytesOf cs

/-- The bytes of a Go string. -/
def goBytes (s : String) : List Nat := goBytesOf s.data

/-- `strings.Split(s, sep)` for a one-character separator, on the characters of
`s`. -/
def splitOnChar (sep : Char) : List Char → List (List Char)
  | [] => [[]]
  | c :: cs =>
    if c = sep then [] :: splitOnChar sep cs
    else
      match splitOnChar sep cs with
      | [] => [[c]]
      | seg :: rest => (c :: seg) :: rest

/-- The verb `%c` of `fmt.Sprintf` applied to a byte: the character whose code
point is the value of the byte. -/
def fmtByte (b : Nat) : Char := Char.ofNat b

/-- What `ObscureEmail` returns: the hidden address with a nil error, or the empty
string with the error `"invalid email"`. -/
inductive Obscured where
  | hidden (hiddenEmail : String)
  | invalidEmail
deriving DecidableEq, Repr

/-- `ObscureEmail(email)`; `none` is a panic. -/
def ObscureEmail (email : String) : Option Obscured :=
  let segments := (splitOnChar '@' email.data).map String.mk
  match segments with
  | [addr, dom] =>
    let address := goBytes addr
    let domain := goBytes dom
    if address.length > 1 then
      match address[0]?, address[1]?, address[address.length - 1]?, domain[0]? with
      | some a0, some a1, some aLast, some d0 =>
        some (Obscured.hidden (String.mk
          ([fmtByte a0, fmtByte a1] ++ "***".data ++ [fmtByte aLast, '@', fmtByte d0] ++
            "***.com".data)))
      | _, _, _, _ => none
    else
      match address[0]?, address[address.length - 1]?, domain[0]? with
      | some a0, some aLast, some d0 =>
        some (Obscured.hidden (String.mk
          ([fmtByte a0] ++ "***".data ++ [fmtByte aLast, '@', fmtByte d0] ++
            "***.com".data)))
      | _, _, _ => none
  | _ => some Obscured.invalidEmail

/-- Outcome of the digit loop of `strconv.ParseUint(s, 10, 64)`. -/
inductive UintParse where
  | ok (n : Nat)
  | syntaxError
  | rangeError
deriving DecidableEq, Repr

/-- The digit loop of `strconv.ParseUint(s, 10, 64)` with accumulator `n`: a byte
that is not a decimal digit is a syntax error, a value above `2^64 - 1` a range
error (raised at the digit where it occurs). -/
def parseUintLoop : List Nat → Nat → UintParse
  | [], n => UintParse.ok n
  | c :: cs, n =>
    if c < 48 ∨ 57 < c then UintParse.syntaxError
    else if n * 10 + (c - 48) > 2 ^ 64 - 1 then UintParse.rangeError
    else parseUintLoop cs (n * 10 + (c - 48))

/-- The value returned by `strconv.Atoi` on the given bytes (64-bit `int`), its
error being discarded: 0 on a syntax error, the nearest bound on a range error. -/
def Atoi (b : List Nat) : Int :=
  let neg : Bool := b.head? = some 45
  let digits := if b.head? = some 43 ∨ b.head? = some 45 then b.tail else b
  if digits = [] then 0
  else
    match parseUintLoop digits 0 with
    | UintParse.syntaxError => 0
    | UintParse.rangeError => if neg then -(2 ^ 63) else 2 ^ 63 - 1
    | UintParse.ok n =>
      if neg then (if n > 2 ^ 63 then -(2 ^ 63) else -(n : Int))
      else (if n ≥ 2 ^ 63 then 2 ^ 63 - 1 else (n : Int))

/-- Wrap-around of 64-bit signed arithmetic. -/
def wrap64 (x : Int) : Int := (x + 2 ^ 63) % 2 ^ 64 - 2 ^ 63

/-- `time.Second`, in nanoseconds. -/
def Second : Int := 1000000000

/-- `time.Minute`. -/
def Minute : Int := 60 * Second

/-- `time.Hour`. -/
def Hour : Int := 60 * Minute

/-- `StrToDuration(str, isDebug)`, in nanoseconds; `none` is the panic of
`str[len(str)-1]` on the empty string. -/
def StrToDuration (str : String) (isDebug : Bool) : Option Int :=
  let b := goBytes str
  match b.getLast? with
  | none => none
  | some unit =>
    let length := Atoi b.dropLast
    if unit = 100 then some (wrap64 (wrap64 (length * Hour) * 24))
    else if unit = 104 then some (wrap64 (length * Hour))
    else if unit = 109 then some (wrap64 (length * Minute))
    else if unit = 115 then
      if !isDebug then some Minute
      else some (wrap64 (length * Second))
    else some 0

/-- The decimal number written by a list of digit characters. -/
def decimalValue (ds : List Char) : Nat :=
  ds.foldl (fun n d => n * 10 + (d.toNat - 48)) 0

/-- A non-empty list of decimal digits. -/
def isDecimal (ds : List Char) : Prop :=
  ds ≠ [] ∧ ∀ d ∈ ds, 48 ≤ d.toNat ∧ d.toNat ≤ 57

/-- The largest `time.Duration`. -/
def maxDuration : Int := 2 ^ 63 - 1

/-- The kinds of `reflect.Kind` that `IsStructMissingAnyField` tells apart, and
the others. -/
inductive FieldKind where
  | string | slice | bool | int | uint | float | other
deriving DecidableEq, Repr

/-- A struct field as seen through `reflect`: its kind and, for a string or a
slice, its `Len()`. -/
structure StructField where
  kind : FieldKind
  len : Nat
deriving DecidableEq, Repr

/-- `IsStructMissingAnyField(s)` on the fields of `s`, in declaration order. -/
def IsStructMissingAnyField : List StructField → Bool
  | [] => false
  | f :: rest =>
    match f.kind with
    | FieldKind.string => if f.len = 0 then true else IsStructMissingAnyField rest
    | FieldKind.slice => if f.len = 0 then true else IsStructMissingAnyField rest
    | _ => IsStructMissingAnyField rest

/-- The struct `shared.Signup`, whose declaration is not among the sources: the
three fields read by `SignupWithEmail` and the list of its other fields. -/
structure Signup where
  Identifier : String
  LoginKeyHash : List Nat
  ProtectedKey : List Nat
  others : List StructField
deriving DecidableEq, Repr

/-- The fields of a `Signup` value as `reflect` presents them. -/
def Signup.fields (s : Signup) : List StructField :=
  [ { kind := FieldKind.string, len := (goBytes s.Identifier).length },
    { kind := FieldKind.slice, len := s.LoginKeyHash.length },
    { kind := FieldKind.slice, len := s.ProtectedKey.length } ] ++ s.others

/-- Errors returned by `SignupWithEmail`. -/
inductive SignupError where
  | MissingField
  | other (msg : String)
deriving DecidableEq, Repr

/-- Collaborators of `SignupWithEmail`: `bcrypt.GenerateFromPassword` (cost 8),
`db.NewVerification` and `mail.SendVerificationEmail`. -/
structure SignupEnv where
  GenerateFromPassword : List Nat → Except String (List Nat)
  NewVerification : String → List Nat → List Nat → Except String String
  SendVerificationEmail : String → String → Option String

/-- Calls of `SignupWithEmail` that create a verification record or send mail. -/
inductive SignupCall where
  | NewVerification (identifier : String) (hash protectedKey : List Nat)
  | SendVerificationEmail (code identifier : String)
deriving DecidableEq, Repr

/-- `SignupWithEmail(signup)`: the returned error and the calls made. -/
def SignupWithEmail (env : SignupEnv) (signup : Signup) :
    Option SignupError × List SignupCall :=
  if IsStructMissingAnyField signup.fields then (some SignupError.MissingField, [])
  else
    match env.GenerateFromPassword signup.LoginKeyHash with
    | Except.error e => (some (SignupError.other e), [])
    | Except.ok hash =>
      let call1 := SignupCall.NewVerification signup.Identifier hash signup.ProtectedKey
      match env.NewVerification signup.Identifier hash signup.ProtectedKey with
      | Except.error e => (some (SignupError.other e), [call1])
      | Except.ok code =>
        let call2 := SignupCall.SendVerificationEmail code signup.Identifier
        match env.SendVerificationEmail code signup.Identifier with
        | some e => (some (SignupError.other e), [call1, call2])
        | none => (none, [call1, call2])

/-! ## Sample data -/

/-- Expiration on 31 December 2025, midnight. -/
def dec31 : Time :=
  { year := 2025, month := 12, day := 31, nsec := 0,
    month_ok := by decide, day_ok := by decide, nsec_ok := by decide }

/-- Noon of 30 June 2025. -/
def june30 : Time :=
  { year := 2025, month := 6, day := 30, nsec := 43200000000000,
    month_ok := by decide, day_ok := by decide, nsec_ok := by decide }

/-- Expiration on 31 January 2025, midnight. -/
def jan31 : Time :=
  { year := 2025, month := 1, day := 31, nsec := 0,
    month_ok := by decide, day_ok := by decide, nsec_ok := by decide }

/-- A metered account: 10 bytes of storage and of send available, nothing used. -/
def alice : UserRow :=
  { id := "alice", sub_tag := "novice", member_expiration := dec31,
    last_upgraded_month := 5, storage_available := 10, storage_used := 0,
    send_available := 10, send_used := 0, bandwidth := 0 }

/-- An unmetered account: nothing available, 7 bytes recorded as used. -/
def bob : UserRow :=
  { id := "bob", sub_tag := "", member_expiration := dec31,
    last_upgraded_month := 5, storage_available := 0, storage_used := 7,
    send_available := 0, send_used := 7, bandwidth := 0 }

/-- A configuration with metering switched on. -/
def meteredCfg : Config := { DefaultUserStorage := 5, DefaultUserSend := 5 }

/-- The configuration obtained when the environment sets nothing (both defaults
are 0). -/
def defaultCfg : Config := { DefaultUserStorage := 0, DefaultUserSend := 0 }

/-- A table holding one active member whose expiration falls on a 31st. -/
def members : Table :=
  [{ alice with send_used := 3 }]

/-- A table holding one member whose membership ran out on 31 January 2025. -/
def formerMembers : Table :=
  [{ alice with member_expiration := jan31, send_used := 3 }, bob]

/-- A one-product catalogue. -/
def catalogue (tag : String) : Option Product :=
  if tag = "novice" then some { SendGBReal := 50, StorageGBReal := 100 } else none

/-- Noon of 10 June 2025. -/
def june10 : Time :=
  { year := 2025, month := 6, day := 10, nsec := 43200000000000,
    month_ok := by decide, day_ok := by decide, nsec_ok := by decide }

/-- The evening (18:00) of 30 June 2025. -/
def june30evening : Time :=
  { year := 2025, month := 6, day := 30, nsec := 64800000000000,
    month_ok := by decide, day_ok := by decide, nsec_ok := by decide }

/-- A download environment in which chunk 2 is the last chunk of every file and
the decrement leaves `rem` downloads. -/
def lastChunkEnv (rem : Int) : DownloadEnv :=
  { Atoi := fun s => if s = "2" then 2 else 0,
    RetrieveMetadata := fun id => { ID := id, B2ID := "b2-" ++ id, Length := 100 },
    DownloadFile := fun _ _ chunk => (decide (chunk = 2), [1, 2, 3]),
    GetFileExpiry := fun _ => "2025-06-30",
    DecrementDownloads := fun _ => rem }

/-- An upload environment in which both B2 initialisations succeed. -/
def uploadEnv : UploadEnv :=
  { NewMetadata := fun _ name _ => "id-" ++ name,
    StrToDuration := fun _ => 60,
    InitB2Upload := some { UploadURL := "url1", AuthorizationToken := "tok1", ref := "bucket" },
    InitLargeB2Upload := fun _ =>
      some { UploadURL := "url2", AuthorizationToken := "tok2", ref := "file" } }

/-- Upload metadata declaring three chunks. -/
def threeChunks : UploadMetadata :=
  { Name := "f", Chunks := 3, Salt := [], Downloads := 1, Expiration := "1d" }

/-- Framing constants used in the examples. -/
def sampleConsts : ChunkConsts :=
  { KEY_SIZE := 32, NONCE_SIZE := 24, BUFFER_SIZE := 4096, Overhead := 16 }

/-- Framing constants with a chunk frame of `24 + 1220 + 16 = 1260` bytes. -/
def smallConsts : ChunkConsts :=
  { KEY_SIZE := 32, NONCE_SIZE := 24, BUFFER_SIZE := 1220, Overhead := 16 }

/-- A run of `CheckMemberships` in which every tier `UPDATE` fails. -/
def tierFailure : Faults :=
  { query := false, scan := fun _ => false, revertExec := false,
    upgradeExec := fun _ => true }

/-- A signup environment in which every collaborator succeeds. -/
def signupEnv : SignupEnv :=
  { GenerateFromPassword := fun pw => Except.ok (0 :: pw),
    NewVerification := fun _ _ _ => Except.ok "123456",
    SendVerificationEmail := fun _ _ => none }

/-- A signup request without identifier. -/
def anonymousSignup : Signup :=
  { Identifier := "", LoginKeyHash := [1, 2], ProtectedKey := [3], others := [] }

/-! ## Generic facts about the table operations -/

theorem head?_filter_map (db : Table) (c : UserRow → Bool) (f : UserRow → UserRow) :
    ((db.filter c).map f).head? = (db.find? c).map f := by
  induction db with
  | nil => rfl
  | cons a t ih =>
    by_cases h : c a = true
    · simp [List.filter, List.find?, h]
    · simp only [Bool.not_eq_true] at h
      simp [List.filter, List.find?, h, ih]

theorem find?_map_update (db : Table) (c : UserRow → Bool) (f : UserRow → UserRow)
    (hc : ∀ u, c (f u) = c u) :
    (db.map (fun u => if c u then f u else u)).find? c = (db.find? c).map f := by
  induction db with
  | nil => rfl
  | cons a t ih =>
    by_cases h : c a = true
    · simp [List.find?, h, hc]
    · simp only [Bool.not_eq_true] at h
      simp [List.find?, h, ih]

theorem findUser_map (db : Table) (g : UserRow → UserRow) (id : String)
    (hg : ∀ u, (g u).id = u.id) :
    findUser (db.map g) id = (findUser db id).map g := by
  unfold findUser
  induction db with
  | nil => rfl
  | cons a t ih =>
    by_cases h : (a.id == id) = true
    · simp [List.find?, h, hg]
    · simp only [Bool.not_eq_true] at h
      simp [List.find?, h, hg, ih]

theorem find?_of_findUser (db : Table) (id : String) (p : UserRow → Bool) (u : UserRow)
    (hf : findUser db id = some u) (hp : p u = true) :
    db.find? (fun v => v.id == id && p v) = some u := by
  unfold findUser at hf
  induction db with
  | nil => simp at hf
  | cons a t ih =>
    by_cases h : (a.id == id) = true
    · simp only [List.find?, h] at hf
      cases hf
      simp [List.find?, h, hp]
    · simp only [Bool.not_eq_true] at h
      simp only [List.find?, h] at hf
      simp [List.find?, h, ih hf]

/-! ## `UpdateStorageUsed` -/

theorem UpdateStorageUsed_table (cfg : Config) (db : Table) (userID : String) (amount : Int) :
    (UpdateStorageUsed cfg none db userID amount).1 =
      db.map (fun u => if (u.id == userID && decide (u.storage_available > 0))
        then chargeStorage amount u else u) := by
  unfold UpdateStorageUsed updateReturning
  dsimp only
  split_ifs <;> rfl

theorem UpdateStorageUsed_charged (cfg : Config) (db : Table) (userID : String) (amount : Int) :
    chargedStorageRow (UpdateStorageUsed cfg none db userID amount).1 userID =
      (chargedStorageRow db userID).map (chargeStorage amount) := by
  rw [UpdateStorageUsed_table]
  unfold chargedStorageRow
  exact find?_map_update db _ _ (fun u => rfl)

theorem UpdateStorageUsed_err (cfg : Config) (db : Table) (userID : String) (amount : Int) :
    (UpdateStorageUsed cfg none db userID amount).2 =
      match chargedStorageRow (UpdateStorageUsed cfg none db userID amount).1 userID with
      | some r =>
        if r.storage_used > r.storage_available ∧ amount > 0 ∧ cfg.DefaultUserStorage > 0
        then some Error.UserStorageExceeded else none
      | none => none := by
  rw [UpdateStorageUsed_charged]
  unfold UpdateStorageUsed updateReturning chargedStorageRow
  dsimp only
  rw [head?_filter_map]
  cases hfind : db.find? (fun u => u.id == userID && decide (u.storage_available > 0)) with
  | none => simp
  | some r =>
    simp only [Option.map_some', chargeStorage]
    split_ifs <;> rfl

/-- C1: absent a database error, `UpdateStorageUsed` returns `UserStorageExceeded`
exactly when a row was updated (the account exists with `storage_available > 0`),
its post-charge `storage_used` is greater than its `storage_available`,
`amount > 0` and `DefaultUserStorage > 0`; in particular it never returns
`UserStorageExceeded` for `amount ≤ 0`. -/
theorem UpdateStorageUsed_exceeded_iff (cfg : Config) (db : Table) (userID : String)
    (amount : Int) :
    ((UpdateStorageUsed cfg none db userID amount).2 = some Error.UserStorageExceeded ↔
      (∃ r, chargedStorageRow (UpdateStorageUsed cfg none db userID amount).1 userID = some r ∧
        r.storage_used > r.storage_available) ∧
      amount > 0 ∧ cfg.DefaultUserStorage > 0) ∧
    (amount ≤ 0 →
      (UpdateStorageUsed cfg none db userID amount).2 ≠ some Error.UserStorageExceeded) := by
  have herr := UpdateStorageUsed_err cfg db userID amount
  cases hrow : chargedStorageRow (UpdateStorageUsed cfg none db userID amount).1 userID with
  | none =>
    rw [hrow] at herr
    simp [herr]
  | some r =>
    rw [hrow] at herr
    dsimp only at herr
    rw [herr]
    refine ⟨?_, ?_⟩
    · constructor
      · intro h
        split_ifs at h with hc
        exact ⟨⟨r, rfl, hc.1⟩, hc.2.1, hc.2.2⟩
      · rintro ⟨⟨r', hr', hgt⟩, ha, hd⟩
        cases hr'
        rw [if_pos ⟨hgt, ha, hd⟩]
    · intro ha
      have : ¬ (r.storage_used > r.storage_available ∧ amount > 0 ∧
          cfg.DefaultUserStorage > 0) := by
        rintro ⟨_, h, _⟩
        omega
      rw [if_neg this]
      simp

/-- Witness for C1: freeing 5 bytes on a metered account is never refused. -/
theorem UpdateStorageUsed_exceeded_iff_witness :
    (UpdateStorageUsed meteredCfg none [alice] "alice" (-5)).2 ≠
      some Error.UserStorageExceeded :=
  (UpdateStorageUsed_exceeded_iff meteredCfg [alice] "alice" (-5)).2 (by decide)

theorem chargeStorage_nonneg (amount : Int) (u : UserRow) :
    0 ≤ (chargeStorage amount u).storage_used := by
  unfold chargeStorage
  dsimp only
  split_ifs <;> omega

theorem UpdateStorageUsed_nonneg (cfg : Config) (fault : Option String) (db : Table)
    (userID : String) (amount : Int) (h : ∀ u ∈ db, 0 ≤ u.storage_used) :
    ∀ u ∈ (UpdateStorageUsed cfg fault db userID amount).1, 0 ≤ u.storage_used := by
  cases fault with
  | some e => exact h
  | none =>
    rw [UpdateStorageUsed_table]
    intro u hu
    rw [List.mem_map] at hu
    obtain ⟨v, hv, rfl⟩ := hu
    split_ifs
    · exact chargeStorage_nonneg amount v
    · exact h v hv

theorem runStorageCalls_nonneg (cfg : Config) (calls : List StorageCall) :
    ∀ db : Table, (∀ u ∈ db, 0 ≤ u.storage_used) →
      ∀ u ∈ runStorageCalls cfg db calls, 0 ≤ u.storage_used := by
  induction calls with
  | nil => intro db h; exact h
  | cons c cs ih =>
    intro db h
    exact ih _ (UpdateStorageUsed_nonneg cfg c.fault db c.userID c.amount h)

theorem UpdateStorageUsed_findUser (cfg : Config) (db : Table) (userID : String)
    (amount : Int) (u : UserRow) (hfind : findUser db userID = some u)
    (hav : u.storage_available > 0) :
    findUser (UpdateStorageUsed cfg none db userID amount).1 userID =
      some (chargeStorage amount u) ∧
    chargedStorageRow (UpdateStorageUsed cfg none db userID amount).1 userID =
      some (chargeStorage amount u) := by
  constructor
  · rw [UpdateStorageUsed_table, findUser_map _ _ _ (fun v => by split_ifs <;> rfl), hfind]
    have hid : u.id = userID := by
      have := List.find?_some hfind
      simpa using this
    simp [hid, hav]
  · rw [UpdateStorageUsed_charged]
    unfold chargedStorageRow
    rw [find?_of_findUser db userID (fun v => decide (v.storage_available > 0)) u hfind
      (by simpa using hav)]
    rfl

/-- C2: for an account with `storage_available > 0` and any amount, absent a
database error `UpdateStorageUsed` sets `storage_used` to
`max 0 (storage_used + amount)` and changes no other column; and if every
`storage_used` of the table is non-negative, it is still so after any sequence of
`UpdateStorageUsed` calls (any accounts, positive or negative amounts, failing or
not). -/
theorem UpdateStorageUsed_clamps (cfg : Config) (db : Table) (userID : String)
    (amount : Int) (u : UserRow) (calls : List StorageCall)
    (hfind : findUser db userID = some u) (hav : u.storage_available > 0)
    (hpos : ∀ v ∈ db, 0 ≤ v.storage_used) :
    findUser (UpdateStorageUsed cfg none db userID amount).1 userID =
      some { u with storage_used := max 0 (u.storage_used + amount) } ∧
    ∀ v ∈ runStorageCalls cfg db calls, 0 ≤ v.storage_used := by
  refine ⟨?_, runStorageCalls_nonneg cfg calls db hpos⟩
  rw [(UpdateStorageUsed_findUser cfg db userID amount u hfind hav).1]
  unfold chargeStorage
  congr 2
  split_ifs with h
  · rw [max_eq_left (by omega)]
  · rw [max_eq_right (by omega)]

/-- Witness for C2: a charge of 4, then a release of 9, on a metered account. -/
theorem UpdateStorageUsed_clamps_witness :
    findUser (UpdateStorageUsed meteredCfg none [alice, bob] "alice" (-3)).1 "alice" =
      some { alice with storage_used := max 0 (alice.storage_used + (-3)) } ∧
    ∀ v ∈ runStorageCalls meteredCfg [alice, bob]
        [⟨none, "alice", 4⟩, ⟨none, "alice", -9⟩], 0 ≤ v.storage_used :=
  UpdateStorageUsed_clamps meteredCfg [alice, bob] "alice" (-3) alice
    [⟨none, "alice", 4⟩, ⟨none, "alice", -9⟩] (by decide) (by decide) (by decide)

/-! ## `UpdateUserSendUsed` -/

theorem UpdateUserSendUsed_table (db : Table) (id : String) (size : Int) :
    (UpdateUserSendUsed none db id size).1 =
      db.map (fun u => if (u.id == id && decide (u.send_available > 0))
        then chargeSend size u else u) := by
  unfold UpdateUserSendUsed updateReturning
  dsimp only
  split_ifs <;> rfl

theorem UpdateUserSendUsed_charged (db : Table) (id : String) (size : Int) :
    chargedSendRow (UpdateUserSendUsed none db id size).1 id =
      (chargedSendRow db id).map (chargeSend size) := by
  rw [UpdateUserSendUsed_table]
  unfold chargedSendRow
  exact find?_map_update db _ _ (fun u => rfl)

theorem UpdateUserSendUsed_err (db : Table) (id : String) (size : Int) :
    (UpdateUserSendUsed none db id size).2 =
      match chargedSendRow (UpdateUserSendUsed none db id size).1 id with
      | some r => if r.send_used > r.send_available then some Error.UserSendExceeded else none
      | none => none := by
  rw [UpdateUserSendUsed_charged]
  unfold UpdateUserSendUsed updateReturning chargedSendRow
  dsimp only
  rw [head?_filter_map]
  cases hfind : db.find? (fun u => u.id == id && decide (u.send_available > 0)) with
  | none => simp
  | some r =>
    simp only [Option.map_some', chargeSend]
    split_ifs <;> rfl

theorem UpdateUserSendUsed_findUser (db : Table) (id : String)
    (size : Int) (u : UserRow) (hfind : findUser db id = some u)
    (hav : u.send_available > 0) :
    findUser (UpdateUserSendUsed none db id size).1 id = some (chargeSend size u) ∧
    chargedSendRow (UpdateUserSendUsed none db id size).1 id = some (chargeSend size u) := by
  constructor
  · rw [UpdateUserSendUsed_table, findUser_map _ _ _ (fun v => by split_ifs <;> rfl), hfind]
    have hid : u.id = id := by
      have := List.find?_some hfind
      simpa using this
    simp [hid, hav]
  · rw [UpdateUserSendUsed_charged]
    unfold chargedSendRow
    rw [find?_of_findUser db id (fun v => decide (v.send_available > 0)) u hfind
      (by simpa using hav)]
    rfl

theorem updateReturning_no_match (db : Table) (c : UserRow → Bool) (f : UserRow → UserRow)
    (h : ∀ u ∈ db, c u = false) : updateReturning db c f = (db, []) := by
  unfold updateReturning
  have h1 : db.map (fun u => if c u then f u else u) = db := by
    conv_rhs => rw [← List.map_id db]
    apply List.map_congr_left
    intro u hu
    simp [h u hu]
  have h2 : db.filter c = [] := by
    rw [List.filter_eq_nil_iff]
    intro u hu
    simp [h u hu]
  rw [h1, h2]
  rfl

/-! ## Quota enforcement -/

/-- C3, as stated, fails: with the default configuration (`DefaultUserStorage = 0`)
a charge of 20 bytes on an account with 10 bytes available and none used returns
`nil` and leaves `storage_used = 20 > 10 = storage_available`. -/
theorem UpdateStorageUsed_unguarded_counterexample :
    findUser [alice] "alice" = some alice ∧ alice.storage_available > 0 ∧ (20 : Int) > 0 ∧
    UpdateStorageUsed defaultCfg none [alice] "alice" 20 =
      ([{ alice with storage_used := 20 }], none) ∧
    ¬ ((20 : Int) ≤ alice.storage_available) := by
  decide

/-- C3 (amended): when `DefaultUserStorage > 0`, for an account with
`storage_available > 0` and an amount `> 0`, a call to `UpdateStorageUsed` that
returns `nil` leaves `storage_used ≤ storage_available`. -/
theorem UpdateStorageUsed_nil_within_quota (cfg : Config) (fault : Option String)
    (db : Table) (userID : String) (amount : Int) (u : UserRow)
    (hcfg : cfg.DefaultUserStorage > 0)
    (hfind : findUser db userID = some u) (hav : u.storage_available > 0)
    (hamount : amount > 0)
    (hnil : (UpdateStorageUsed cfg fault db userID amount).2 = none) :
    ∃ r, findUser (UpdateStorageUsed cfg fault db userID amount).1 userID = some r ∧
      r.storage_used ≤ r.storage_available := by
  cases fault with
  | some e => simp [UpdateStorageUsed] at hnil
  | none =>
    obtain ⟨h1, h2⟩ := UpdateStorageUsed_findUser cfg db userID amount u hfind hav
    refine ⟨chargeStorage amount u, h1, ?_⟩
    by_contra hgt
    have herr := UpdateStorageUsed_err cfg db userID amount
    rw [h2] at herr
    dsimp only at herr
    rw [if_pos ⟨by omega, hamount, hcfg⟩, hnil] at herr
    cases herr

/-- Witness for C3 (amended): a charge of 4 bytes within a 10-byte quota. -/
theorem UpdateStorageUsed_nil_within_quota_witness :
    ∃ r, findUser (UpdateStorageUsed meteredCfg none [alice] "alice" 4).1 "alice" = some r ∧
      r.storage_used ≤ r.storage_available :=
  UpdateStorageUsed_nil_within_quota meteredCfg none [alice] "alice" 4 alice
    (by decide) (by decide) (by decide) (by decide) (by decide)

/-- C4, as stated, fails: a charge of 20 bytes on an account with 10 bytes
available and none used is refused with `UserStorageExceeded` (respectively
`UserSendExceeded`), yet the table then records 20 bytes used, not 0. -/
theorem failing_charge_applied_counterexample :
    UpdateStorageUsed meteredCfg none [alice] "alice" 20 =
      ([{ alice with storage_used := 20 }], some Error.UserStorageExceeded) ∧
    UpdateUserSendUsed none [alice] "alice" 20 =
      ([{ alice with send_used := 20 }], some Error.UserSendExceeded) ∧
    alice.storage_used = 0 ∧ alice.send_used = 0 := by
  decide

/-- C4 (amended): when `UpdateStorageUsed` returns `UserStorageExceeded` for an
account with `storage_available > 0`, the charge stays applied: afterwards
`storage_used` is its previous value plus `amount`, which exceeds
`storage_available`, and no other column has changed.  Likewise when
`UpdateUserSendUsed` returns `UserSendExceeded` for an account with
`send_available > 0`, with `send_used`, `size` and `send_available`. -/
theorem failing_charge_stays_applied (cfg : Config) (db : Table) (userID : String)
    (amount : Int) (u : UserRow) (hfind : findUser db userID = some u) :
    (u.storage_available > 0 →
      (UpdateStorageUsed cfg none db userID amount).2 = some Error.UserStorageExceeded →
      findUser (UpdateStorageUsed cfg none db userID amount).1 userID =
        some { u with storage_used := u.storage_used + amount } ∧
      u.storage_used + amount > u.storage_available) ∧
    (u.send_available > 0 →
      (UpdateUserSendUsed none db userID amount).2 = some Error.UserSendExceeded →
      findUser (UpdateUserSendUsed none db userID amount).1 userID =
        some { u with send_used := u.send_used + amount } ∧
      u.send_used + amount > u.send_available) := by
  constructor
  · intro hav hex
    obtain ⟨h1, h2⟩ := UpdateStorageUsed_findUser cfg db userID amount u hfind hav
    have herr := UpdateStorageUsed_err cfg db userID amount
    rw [h2, hex] at herr
    dsimp only at herr
    split_ifs at herr with hc
    have hgt := hc.1
    rw [h1]
    unfold chargeStorage at hgt ⊢
    dsimp only at hgt ⊢
    split_ifs at hgt ⊢ with hneg
    · omega
    · exact ⟨rfl, hgt⟩
  · intro hav hex
    obtain ⟨h1, h2⟩ := UpdateUserSendUsed_findUser db userID amount u hfind hav
    have herr := UpdateUserSendUsed_err db userID amount
    rw [h2, hex] at herr
    dsimp only at herr
    split_ifs at herr with hgt
    rw [h1]
    unfold chargeSend at hgt ⊢
    dsimp only at hgt ⊢
    split_ifs at hgt ⊢ with hneg
    · omega
    · exact ⟨rfl, hgt⟩

/-- Witness for C4 (amended): the refused 20-byte charges of the counterexample. -/
theorem failing_charge_stays_applied_witness :
    (findUser (UpdateStorageUsed meteredCfg none [alice] "alice" 20).1 "alice" =
        some { alice with storage_used := alice.storage_used + 20 } ∧
      alice.storage_used + 20 > alice.storage_available) ∧
    (findUser (UpdateUserSendUsed none [alice] "alice" 20).1 "alice" =
        some { alice with send_used := alice.send_used + 20 } ∧
      alice.send_used + 20 > alice.send_available) :=
  ⟨(failing_charge_stays_applied meteredCfg [alice] "alice" 20 alice (by decide)).1
      (by decide) (by decide),
   (failing_charge_stays_applied meteredCfg [alice] "alice" 20 alice (by decide)).2
      (by decide) (by decide)⟩

/-- C5: `UpdateUserSendUsed` has no `size > 0` guard.  On an account with
`send_available = 10` a refused charge of 30 bytes leaves `send_used = 30`; then
freeing 5 bytes (`size = -5`) sets `send_used = 25` and returns
`UserSendExceeded`, and so does a charge of size 0.  `UpdateStorageUsed`, in the
same situation, returns `nil`. -/
theorem UpdateUserSendUsed_negative_size_refused :
    (UpdateUserSendUsed none [alice] "alice" 30).1 = [{ alice with send_used := 30 }] ∧
    UpdateUserSendUsed none [{ alice with send_used := 30 }] "alice" (-5) =
      ([{ alice with send_used := 25 }], some Error.UserSendExceeded) ∧
    UpdateUserSendUsed none [{ alice with send_used := 30 }] "alice" 0 =
      ([{ alice with send_used := 30 }], some Error.UserSendExceeded) ∧
    UpdateStorageUsed meteredCfg none [{ alice with storage_used := 30 }] "alice" (-5) =
      ([{ alice with storage_used := 25 }], none) := by
  decide

/-- C6: for an account whose `storage_available` is `≤ 0` (or that does not exist)
and any amount, `UpdateStorageUsed` returns `nil` and leaves the whole table, in
particular the account's `storage_used`, unchanged; likewise `UpdateUserSendUsed`
for an account whose `send_available` is `≤ 0` and any size. -/
theorem unmetered_charge_is_noop (cfg : Config) (db : Table) (userID : String)
    (amount : Int) :
    ((∀ u ∈ db, u.id = userID → u.storage_available ≤ 0) →
      UpdateStorageUsed cfg none db userID amount = (db, none)) ∧
    ((∀ u ∈ db, u.id = userID → u.send_available ≤ 0) →
      UpdateUserSendUsed none db userID amount = (db, none)) := by
  constructor
  · intro h
    unfold UpdateStorageUsed
    dsimp only
    rw [updateReturning_no_match]
    · simp
    · intro u hu
      by_cases hid : u.id = userID
      · have := h u hu hid
        simp [hid]
        omega
      · simp [hid]
  · intro h
    unfold UpdateUserSendUsed
    dsimp only
    rw [updateReturning_no_match]
    · simp
    · intro u hu
      by_cases hid : u.id = userID
      · have := h u hu hid
        simp [hid]
        omega
      · simp [hid]

/-- Witness for C6: a 100-byte charge on the unmetered account `bob`. -/
theorem unmetered_charge_is_noop_witness :
    UpdateStorageUsed meteredCfg none [alice, bob] "bob" 100 = ([alice, bob], none) ∧
    UpdateUserSendUsed none [alice, bob] "bob" 100 = ([alice, bob], none) :=
  ⟨(unmetered_charge_is_noop meteredCfg [alice, bob] "bob" 100).1 (by decide),
   (unmetered_charge_is_noop meteredCfg [alice, bob] "bob" 100).2 (by decide)⟩

/-! ## Month rollover -/

theorem daysIn_bounds (y : Int) (m : Nat) : 28 ≤ daysIn y m ∧ daysIn y m ≤ 31 := by
  unfold daysIn
  split_ifs <;> omega

theorem daysIn_december (y : Int) : daysIn y 12 = 31 := by
  unfold daysIn
  simp

theorem AddDate1_cases (t : Time) :
    (t.day < daysIn t.year t.month ∧
      t.AddDate1.year = t.year ∧ t.AddDate1.month = t.month ∧ t.AddDate1.day = t.day + 1) ∨
    (t.day = daysIn t.year t.month ∧ t.month < 12 ∧
      t.AddDate1.year = t.year ∧ t.AddDate1.month = t.month + 1 ∧ t.AddDate1.day = 1) ∨
    (t.day = daysIn t.year t.month ∧ t.month = 12 ∧
      t.AddDate1.year = t.year + 1 ∧ t.AddDate1.month = 1 ∧ t.AddDate1.day = 1) := by
  have hd := t.day_ok
  have hm := t.month_ok
  unfold Time.AddDate1
  by_cases h : t.day < daysIn t.year t.month
  · left
    simp [h]
  · by_cases h12 : t.month < 12
    · right; left
      simp only [h, h12, dite_false, dite_true]
      refine ⟨by omega, ?_⟩
      simp
    · right; right
      simp only [h, h12, dite_false]
      refine ⟨by omega, by omega, ?_⟩
      simp

theorem ExpDateRollover_char (now exp : Time) :
    (ExpDateRollover now exp = true ↔
      exp.Day ≥ 29 ∧ now.Day < exp.Day ∧
        (now.AddDate1.year, now.AddDate1.month) ≠ (now.year, now.month)) ∧
    ((now.AddDate1.year, now.AddDate1.month) ≠ (now.year, now.month) ↔
      now.day = daysIn now.year now.month) := by
  have he := exp.day_ok
  have hb := daysIn_bounds exp.year exp.month
  have hn := now.day_ok
  have hm := now.month_ok
  have hdec := daysIn_december now.year
  unfold ExpDateRollover Time.Day Time.Month
  rcases AddDate1_cases now with ⟨h1, h2, h3, _⟩ | ⟨h1, h0, h2, h3, _⟩ | ⟨h1, h0, h2, h3, _⟩
  · rw [h2, h3]
    constructor
    · split_ifs with h28
      · simp
      · simp
    · simp
      omega
  · rw [h2, h3]
    constructor
    · split_ifs with h28
      · simp
        omega
      · simp only [Bool.and_eq_true, decide_eq_true_eq, ne_eq, Prod.mk.injEq, true_and]
        constructor
        · rintro ⟨ha, _⟩
          exact ⟨by omega, by omega, by omega⟩
        · rintro ⟨_, hb', _⟩
          exact ⟨by omega, by push_cast; omega⟩
    · simp [h1]
  · rw [h2, h3]
    rw [h0] at h1 hn
    constructor
    · split_ifs with h28
      · simp
        omega
      · simp only [Bool.and_eq_true, decide_eq_true_eq, ne_eq, Prod.mk.injEq]
        constructor
        · rintro ⟨_, hlt⟩
          exfalso
          omega
        · rintro ⟨_, hb', _⟩
          exfalso
          omega
    · simp [h1, h0]

/-- C7: `ExpDateRollover now exp` is true exactly when the day of month of `exp`
is at least 29, the day of month of `now` is strictly smaller, and the day after
`now` lies in another calendar month than `now`, that is `now` is the last day of
its month (31 December included, where the condition on the days cannot hold). -/
theorem ExpDateRollover_iff (now exp : Time) :
    (ExpDateRollover now exp = true ↔
      exp.Day ≥ 29 ∧ now.Day < exp.Day ∧
        (now.AddDate1.year, now.AddDate1.month) ≠ (now.year, now.month)) ∧
    ((now.AddDate1.year, now.AddDate1.month) ≠ (now.year, now.month) ↔
      now.day = daysIn now.year now.month) :=
  ExpDateRollover_char now exp

/-- C8: for every expiration (its day of month `d` is any of 1..31) and every
calendar month of every year, some day of that month satisfies the refresh
condition of `CheckMemberships` (`now.Day() == exp.Day()` or `ExpDateRollover`),
at whatever time of that day the check runs. -/
theorem refreshDue_some_day (y : Int) (m : Nat) (hm : 1 ≤ m ∧ m ≤ 12) (exp : Time) :
    ∃ now : Time, now.year = y ∧ now.month = m ∧
      ∀ t : Time, t.year = y → t.month = m → t.day = now.day →
        refreshDue t exp = true := by
  have he := exp.day_ok
  have hb := daysIn_bounds exp.year exp.month
  have hb' := daysIn_bounds y m
  by_cases hle : exp.day ≤ daysIn y m
  · refine ⟨⟨y, m, exp.day, 0, hm, ⟨he.1, hle⟩, by decide⟩, rfl, rfl, ?_⟩
    intro t _ _ hd
    dsimp only at hd
    simp [refreshDue, Time.Day, hd]
  · refine ⟨⟨y, m, daysIn y m, 0, hm, ⟨by omega, le_refl _⟩, by decide⟩, rfl, rfl, ?_⟩
    intro t hy hmo hd
    dsimp only at hd
    have hne : m ≠ 12 := by
      rintro rfl
      rw [daysIn_december] at hle
      omega
    have hroll := (ExpDateRollover_char t exp).1
    have hlast := (ExpDateRollover_char t exp).2
    have : ExpDateRollover t exp = true := by
      rw [hroll]
      refine ⟨?_, ?_, ?_⟩
      · simp only [Time.Day]; omega
      · simp only [Time.Day]; omega
      · rw [hlast, hy, hmo, hd]
    simp [refreshDue, this]

/-- Witness for C8: February 2023 and an expiration on the 31st. -/
theorem refreshDue_some_day_witness :
    ∃ now : Time, now.year = 2023 ∧ now.month = 2 ∧
      ∀ t : Time, t.year = 2023 → t.month = 2 → t.day = now.day →
        refreshDue t dec31 = true :=
  refreshDue_some_day 2023 2 (by decide) dec31

/-! ## The scan loop of `CheckMemberships` -/

theorem appendUpgrade_self (m : UpgradeMap) (tag id : String) :
    inUpgradeSet (appendUpgrade m tag id) tag id := by
  induction m with
  | nil => exact ⟨[id], by simp [appendUpgrade], by simp⟩
  | cons e rest ih =>
    obtain ⟨t, ids⟩ := e
    unfold appendUpgrade
    split_ifs with h
    · subst h
      exact ⟨ids ++ [id], by simp, by simp⟩
    · obtain ⟨ids', h1, h2⟩ := ih
      exact ⟨ids', List.mem_cons_of_mem _ h1, h2⟩

theorem appendUpgrade_keeps (m : UpgradeMap) (tag id t x : String)
    (h : inUpgradeSet m t x) : inUpgradeSet (appendUpgrade m tag id) t x := by
  induction m with
  | nil =>
    obtain ⟨ids, h1, _⟩ := h
    simp at h1
  | cons e rest ih =>
    obtain ⟨t0, ids0⟩ := e
    obtain ⟨ids, h1, h2⟩ := h
    unfold appendUpgrade
    rw [List.mem_cons] at h1
    split_ifs with heq
    · rcases h1 with h1 | h1
      · cases h1
        exact ⟨ids0 ++ [id], by simp, by simp [h2]⟩
      · exact ⟨ids, List.mem_cons_of_mem _ h1, h2⟩
    · rcases h1 with h1 | h1
      · cases h1
        exact ⟨ids0, by simp, h2⟩
      · obtain ⟨ids', h3, h4⟩ := ih ⟨ids, h1, h2⟩
        exact ⟨ids', List.mem_cons_of_mem _ h3, h4⟩

theorem appendUpgrade_origin (m : UpgradeMap) (tag id t x : String)
    (h : inUpgradeSet (appendUpgrade m tag id) t x) :
    inUpgradeSet m t x ∨ (t = tag ∧ x = id) := by
  induction m with
  | nil =>
    obtain ⟨ids, h1, h2⟩ := h
    simp only [appendUpgrade, List.mem_singleton, Prod.mk.injEq] at h1
    obtain ⟨rfl, rfl⟩ := h1
    right
    exact ⟨rfl, by simpa using h2⟩
  | cons e rest ih =>
    obtain ⟨t0, ids0⟩ := e
    obtain ⟨ids, h1, h2⟩ := h
    unfold appendUpgrade at h1
    split_ifs at h1 with heq
    · rw [List.mem_cons] at h1
      rcases h1 with h1 | h1
      · cases h1
        rw [List.mem_append, List.mem_singleton] at h2
        rcases h2 with h2 | h2
        · left
          exact ⟨ids0, by simp, h2⟩
        · right
          exact ⟨heq, h2⟩
      · left
        exact ⟨ids, List.mem_cons_of_mem _ h1, h2⟩
    · rw [List.mem_cons] at h1
      rcases h1 with h1 | h1
      · cases h1
        left
        exact ⟨ids0, by simp, h2⟩
      · rcases ih ⟨ids, h1, h2⟩ with ⟨ids', h3, h4⟩ | h3
        · left
          exact ⟨ids', List.mem_cons_of_mem _ h3, h4⟩
        · right
          exact h3

theorem scanRows_some (faults : Faults) (now : Time) (hs : ∀ i, faults.scan i = false)
    (rows : List UserRow) :
    ∀ (i : Nat) (rev : List String) (up : UpgradeMap),
      ∃ r, scanRows faults now i rows rev up = some r := by
  induction rows with
  | nil => intro i rev up; exact ⟨(rev, up), rfl⟩
  | cons u rest ih =>
    intro i rev up
    unfold scanRows
    rw [hs i]
    simp only [Bool.false_eq_true, if_false]
    split_ifs
    · exact ih _ _ _
    · exact ih _ _ _
    · exact ih _ _ _

/-- What the scan loop guarantees about its result, in terms of the sets it was
started with and the rows it went through. -/
theorem scanRows_spec (faults : Faults) (now : Time) (rows : List UserRow) :
    ∀ (i : Nat) (rev : List String) (up : UpgradeMap) (rev1 : List String) (up1 : UpgradeMap),
      scanRows faults now i rows rev up = some (rev1, up1) →
      (∀ x ∈ rev, x ∈ rev1) ∧
      (∀ t x, inUpgradeSet up t x → inUpgradeSet up1 t x) ∧
      (∀ u ∈ rows, lapsed now u.member_expiration = true → u.id ∈ rev1) ∧
      (∀ u ∈ rows, lapsed now u.member_expiration = false →
        refreshDue now u.member_expiration = true → inUpgradeSet up1 u.sub_tag u.id) ∧
      (∀ t x, inUpgradeSet up1 t x → inUpgradeSet up t x ∨
        ∃ v ∈ rows, v.id = x ∧ lapsed now v.member_expiration = false) := by
  induction rows with
  | nil =>
    intro i rev up rev1 up1 h
    simp only [scanRows, Option.some.injEq, Prod.mk.injEq] at h
    obtain ⟨rfl, rfl⟩ := h
    refine ⟨fun x hx => hx, fun t x hx => hx, ?_, ?_, fun t x hx => Or.inl hx⟩
    · intro u hu; simp at hu
    · intro u hu; simp at hu
  | cons u rest ih =>
    intro i rev up rev1 up1 h
    unfold scanRows at h
    split_ifs at h with hsc hl hr
    · obtain ⟨a, b, c, d, e⟩ := ih _ _ _ _ _ h
      refine ⟨fun x hx => a x (by simp [hx]), b, ?_, ?_, ?_⟩
      · intro v hv hlv
        rcases List.mem_cons.1 hv with rfl | hv
        · exact a _ (by simp)
        · exact c v hv hlv
      · intro v hv hlv hrv
        rcases List.mem_cons.1 hv with rfl | hv
        · rw [hl] at hlv; cases hlv
        · exact d v hv hlv hrv
      · intro t x hx
        rcases e t x hx with h1 | ⟨v, hv, h1⟩
        · exact Or.inl h1
        · exact Or.inr ⟨v, List.mem_cons_of_mem _ hv, h1⟩
    · obtain ⟨a, b, c, d, e⟩ := ih _ _ _ _ _ h
      simp only [Bool.not_eq_true] at hl
      refine ⟨a, fun t x hx => b t x (appendUpgrade_keeps _ _ _ _ _ hx), ?_, ?_, ?_⟩
      · intro v hv hlv
        rcases List.mem_cons.1 hv with rfl | hv
        · rw [hl] at hlv; cases hlv
        · exact c v hv hlv
      · intro v hv hlv hrv
        rcases List.mem_cons.1 hv with rfl | hv
        · exact b _ _ (appendUpgrade_self _ _ _)
        · exact d v hv hlv hrv
      · intro t x hx
        rcases e t x hx with h1 | ⟨v, hv, h1⟩
        · rcases appendUpgrade_origin _ _ _ _ _ h1 with h2 | ⟨_, h2⟩
          · exact Or.inl h2
          · exact Or.inr ⟨u, by simp, h2.symm, hl⟩
        · exact Or.inr ⟨v, List.mem_cons_of_mem _ hv, h1⟩
    · obtain ⟨a, b, c, d, e⟩ := ih _ _ _ _ _ h
      simp only [Bool.not_eq_true] at hl hr
      refine ⟨a, b, ?_, ?_, ?_⟩
      · intro v hv hlv
        rcases List.mem_cons.1 hv with rfl | hv
        · rw [hl] at hlv; cases hlv
        · exact c v hv hlv
      · intro v hv hlv hrv
        rcases List.mem_cons.1 hv with rfl | hv
        · rw [hr] at hrv; cases hrv
        · exact d v hv hlv hrv
      · intro t x hx
        rcases e t x hx with h1 | ⟨v, hv, h1⟩
        · exact Or.inl h1
        · exact Or.inr ⟨v, List.mem_cons_of_mem _ hv, h1⟩

theorem membershipSets_some (faults : Faults) (now : Time) (db : Table)
    (hq : faults.query = false) (hs : ∀ i, faults.scan i = false) :
    ∃ rev up, membershipSets faults now db = some (rev, up) := by
  obtain ⟨⟨rev, up⟩, h⟩ := scanRows_some faults now hs (selectedRows now db) 0 [] []
  exact ⟨rev, up, by simp [membershipSets, hq, h]⟩

theorem membershipSets_spec (faults : Faults) (now : Time) (db : Table)
    (rev : List String) (up : UpgradeMap)
    (h : membershipSets faults now db = some (rev, up)) :
    (∀ u ∈ selectedRows now db, lapsed now u.member_expiration = true → u.id ∈ rev) ∧
    (∀ u ∈ selectedRows now db, lapsed now u.member_expiration = false →
      refreshDue now u.member_expiration = true → inUpgradeSet up u.sub_tag u.id) ∧
    (∀ t x, inUpgradeSet up t x →
      ∃ v ∈ selectedRows now db, v.id = x ∧ lapsed now v.member_expiration = false) := by
  unfold membershipSets at h
  split_ifs at h
  obtain ⟨_, _, c, d, e⟩ := scanRows_spec faults now _ _ _ _ _ _ h
  refine ⟨c, d, ?_⟩
  intro t x hx
  rcases e t x hx with ⟨ids, h1, _⟩ | h1
  · simp at h1
  · exact h1

/-- C9: absent a query or scan failure, a selected account whose expiration has
day of month 31 and whose membership has not lapsed is, when `now` is the 30th
day of a 30-day month, put in the upgrade set of its subscription tag by
`CheckMemberships`. -/
theorem day31_upgraded_on_30th (faults : Faults) (now : Time) (db : Table) (u : UserRow)
    (hq : faults.query = false) (hs : ∀ i, faults.scan i = false)
    (hu : u ∈ selectedRows now db)
    (h31 : u.member_expiration.Day = 31)
    (hactive : lapsed now u.member_expiration = false)
    (h30 : now.Day = 30) (hlen : daysIn now.year now.month = 30) :
    ∃ revertIDs upgradeMap, membershipSets faults now db = some (revertIDs, upgradeMap) ∧
      inUpgradeSet upgradeMap u.sub_tag u.id := by
  obtain ⟨rev, up, h⟩ := membershipSets_some faults now db hq hs
  refine ⟨rev, up, h, ?_⟩
  apply (membershipSets_spec faults now db rev up h).2.1 u hu hactive
  have hroll : ExpDateRollover now u.member_expiration = true := by
    rw [(ExpDateRollover_char now u.member_expiration).1,
      (ExpDateRollover_char now u.member_expiration).2]
    refine ⟨by omega, by omega, ?_⟩
    simp only [Time.Day] at h30
    omega
  simp [refreshDue, hroll]

/-- Witness for C9: expiration 31 December 2025, checked on 30 June 2025. -/
theorem day31_upgraded_on_30th_witness :
    ∃ revertIDs upgradeMap,
      membershipSets Faults.none june30 members = some (revertIDs, upgradeMap) ∧
      inUpgradeSet upgradeMap "novice" "alice" :=
  day31_upgraded_on_30th Faults.none june30 members { alice with send_used := 3 }
    rfl (fun _ => rfl) (by decide) (by decide) (by decide) (by decide) (by decide)

/-! ## The updates of `CheckMemberships` -/

theorem findUser_of_mem_nodup (db : Table) (u : UserRow)
    (hnd : (db.map (fun v => v.id)).Nodup) (hu : u ∈ db) : findUser db u.id = some u := by
  unfold findUser
  induction db with
  | nil => simp at hu
  | cons a t ih =>
    rw [List.map_cons, List.nodup_cons] at hnd
    rcases List.mem_cons.1 hu with rfl | hmem
    · simp [List.find?]
    · have hne : (a.id == u.id) = false := by
        rw [beq_eq_false_iff_ne]
        intro heq
        apply hnd.1
        rw [heq]
        exact List.mem_map_of_mem (fun v => v.id) hmem
      simp only [List.find?, hne]
      exact ih hnd.2 hmem

theorem findUser_id (db : Table) (x : String) (u : UserRow) (h : findUser db x = some u) :
    u.id = x := by
  have := List.find?_some h
  simpa using this

theorem findUser_map_fix (db : Table) (g : UserRow → UserRow) (x : String)
    (hg : ∀ v, (g v).id = v.id) (hfix : ∀ v, v.id = x → g v = v) :
    findUser (db.map g) x = findUser db x := by
  rw [findUser_map db g x hg]
  cases h : findUser db x with
  | none => rfl
  | some u => simp [hfix u (findUser_id db x u h)]

theorem upgradeFunc_findUser_other (execFault : Bool) (now : Time) (db : Table)
    (ids : List String) (a b : Int) (x : String) (hx : x ∉ ids) :
    findUser (upgradeFunc execFault now db ids a b).1 x = findUser db x := by
  unfold upgradeFunc
  split_ifs
  · rfl
  · rfl
  · apply findUser_map_fix
    · intro v; split_ifs <;> rfl
    · intro v hv
      have : v.id ∉ ids := by
        rw [hv]
        exact hx
      simp [this]

theorem upgradeFunc_findUser_hit (now : Time) (db : Table)
    (ids : List String) (a b : Int) (u : UserRow) (hf : findUser db u.id = some u)
    (hx : u.id ∈ ids) :
    findUser (upgradeFunc false now db ids a b).1 u.id =
      some { u with send_used := 0, send_available := a, storage_available := b,
                    last_upgraded_month := now.Month } := by
  unfold upgradeFunc
  have hne : ids.isEmpty = false := by
    cases ids with
    | nil => simp at hx
    | cons _ _ => rfl
  simp only [hne, Bool.false_eq_true, if_false]
  rw [findUser_map _ _ _ (fun v => by split_ifs <;> rfl), hf]
  simp [hx]

theorem upgradeAll_findUser_other (getProductByTag : String → Option Product)
    (faults : Faults) (now : Time) (up : UpgradeMap) (x : String) :
    ∀ db : Table, (∀ entry ∈ up, x ∉ entry.2) →
      findUser (upgradeAll getProductByTag faults now up db) x = findUser db x := by
  induction up with
  | nil => intro db _; rfl
  | cons e rest ih =>
    intro db h
    unfold upgradeAll
    rw [List.foldl_cons]
    have hrest := ih
    unfold upgradeAll at hrest
    rw [hrest _ (fun entry he => h entry (List.mem_cons_of_mem _ he))]
    cases getProductByTag e.1 with
    | none => rfl
    | some product =>
      exact upgradeFunc_findUser_other _ now db e.2 _ _ x (h e (by simp))

/-- C10: absent a database failure in the query, the scans and the revert update,
and with `id` a key of the table, every selected account whose expiration plus 72
hours is strictly before `now` is put in the revert set and in no upgrade set,
whatever its day of month; after `CheckMemberships` its `send_used` is 0, its
`send_available` is `DefaultUserSend` and its `storage_available` is
`DefaultUserStorage` (and its `last_upgraded_month` is the month of `now`). -/
theorem lapsed_member_reverted (cfg : Config) (getProductByTag : String → Option Product)
    (faults : Faults) (now : Time) (db : Table) (u : UserRow)
    (hq : faults.query = false) (hs : ∀ i, faults.scan i = false)
    (hr : faults.revertExec = false)
    (hkey : (db.map (fun v => v.id)).Nodup)
    (hu : u ∈ selectedRows now db)
    (hl : lapsed now u.member_expiration = true) :
    ∃ revertIDs upgradeMap, membershipSets faults now db = some (revertIDs, upgradeMap) ∧
      u.id ∈ revertIDs ∧
      (∀ entry ∈ upgradeMap, u.id ∉ entry.2) ∧
      findUser (CheckMemberships cfg getProductByTag faults now db) u.id =
        some { u with send_used := 0, send_available := cfg.DefaultUserSend,
                      storage_available := cfg.DefaultUserStorage,
                      last_upgraded_month := now.Month } := by
  obtain ⟨rev, up, h⟩ := membershipSets_some faults now db hq hs
  obtain ⟨hrev, _, hup⟩ := membershipSets_spec faults now db rev up h
  have hudb : u ∈ db := (List.mem_filter.1 hu).1
  have hfu := findUser_of_mem_nodup db u hkey hudb
  have hnot : ∀ entry ∈ up, u.id ∉ entry.2 := by
    intro entry he hmem
    obtain ⟨v, hv, hid, hlv⟩ := hup entry.1 u.id ⟨entry.2, he, hmem⟩
    have hfv := findUser_of_mem_nodup db v hkey (List.mem_filter.1 hv).1
    rw [hid, hfu] at hfv
    cases hfv
    rw [hl] at hlv
    cases hlv
  refine ⟨rev, up, h, hrev u hu hl, hnot, ?_⟩
  unfold CheckMemberships
  rw [h]
  dsimp only
  rw [upgradeAll_findUser_other getProductByTag faults now up u.id _ hnot, hr]
  exact upgradeFunc_findUser_hit now db rev _ _ u hfu (hrev u hu hl)

/-- Witness for C10: expiration 31 January 2025, checked on 30 June 2025. -/
theorem lapsed_member_reverted_witness :
    ∃ revertIDs upgradeMap,
      membershipSets Faults.none june30 formerMembers = some (revertIDs, upgradeMap) ∧
      "alice" ∈ revertIDs ∧
      (∀ entry ∈ upgradeMap, "alice" ∉ entry.2) ∧
      findUser (CheckMemberships meteredCfg catalogue Faults.none june30 formerMembers)
          "alice" =
        some { alice with member_expiration := jan31, send_used := 0, send_available := 5,
                          storage_available := 5, last_upgraded_month := 6 } :=
  lapsed_member_reverted meteredCfg catalogue Faults.none june30 formerMembers
    { alice with member_expiration := jan31, send_used := 3 }
    rfl (fun _ => rfl) rfl (by decide) (by decide) (by decide)

/-! ## `UpdateBandwidth` -/

/-- C12: when `DefaultUserStorage ≥ 0`, `UpdateBandwidth` (absent a database
error) sets the account's bandwidth to `bandwidth - amount`, without any lower
bound, and returns `nil`; whatever happens it returns no quota error; when
`DefaultUserStorage < 0` it changes nothing and returns `nil`. -/
theorem UpdateBandwidth_spec (cfg : Config) (fault : Option String) (db : Table)
    (userID : String) (amount : Int) (u : UserRow) (hfind : findUser db userID = some u) :
    (cfg.DefaultUserStorage ≥ 0 →
      findUser (UpdateBandwidth cfg none db userID amount).1 userID =
        some { u with bandwidth := u.bandwidth - amount } ∧
      (UpdateBandwidth cfg none db userID amount).2 = none) ∧
    ((UpdateBandwidth cfg fault db userID amount).2 ≠ some Error.UserStorageExceeded ∧
      (UpdateBandwidth cfg fault db userID amount).2 ≠ some Error.UserSendExceeded) ∧
    (cfg.DefaultUserStorage < 0 → UpdateBandwidth cfg fault db userID amount = (db, none)) := by
  refine ⟨?_, ?_, ?_⟩
  · intro h
    have hn : ¬ cfg.DefaultUserStorage < 0 := by omega
    unfold UpdateBandwidth
    simp only [hn, if_false, and_true]
    rw [findUser_map _ _ _ (fun v => by split_ifs <;> rfl), hfind]
    have hid : u.id = userID := by
      have := List.find?_some hfind
      simpa using this
    simp [hid]
  · unfold UpdateBandwidth
    split_ifs
    · simp
    · cases fault <;> simp
  · intro h
    unfold UpdateBandwidth
    simp [h]

/-- Witness for C12: 5 bytes charged to an account whose bandwidth is 0. -/
theorem UpdateBandwidth_spec_witness :
    findUser (UpdateBandwidth meteredCfg none [alice, bob] "alice" 5).1 "alice" =
      some { alice with bandwidth := alice.bandwidth - 5 } ∧
    (UpdateBandwidth meteredCfg none [alice, bob] "alice" 5).2 = none :=
  (UpdateBandwidth_spec meteredCfg none [alice, bob] "alice" 5 alice (by decide)).1
    (by decide)

/-- C13: the doc comment of `UpdateBandwidth` promises an error when the value
goes below 0, but charging 5 bytes to an account whose bandwidth is 0 stores
`bandwidth = -5` and returns `nil`. -/
theorem UpdateBandwidth_below_zero_no_error :
    alice.bandwidth = 0 ∧
    UpdateBandwidth meteredCfg none [alice] "alice" 5 =
      ([{ alice with bandwidth := -5 }], none) := by
  decide

/-! ## `matchPath` -/

theorem splitSlash_ne_nil (cs : List Char) : splitSlash cs ≠ [] := by
  cases cs with
  | nil => simp [splitSlash]
  | cons c cs =>
    unfold splitSlash
    split_ifs
    · simp
    · split <;> simp

theorem Split_leading_slash (s : String) (cs : List Char) (h : s.data = '/' :: cs) :
    ∃ seg rest, Split s = "" :: seg :: rest := by
  unfold Split
  rw [h]
  unfold splitSlash
  simp only [if_true, List.map_cons]
  cases hs : splitSlash cs with
  | nil => exact absurd hs (splitSlash_ne_nil cs)
  | cons a t => exact ⟨String.mk a, t.map String.mk, rfl⟩

theorem getElem?_append_length (pre : List String) (seg : String) (segs : List String) :
    (pre ++ seg :: segs)[pre.length]? = some seg := by
  induction pre with
  | nil => simp
  | cons a t ih => simpa using ih

/-- The loop of `matchPath` never indexes out of range once the two segment
counts are equal. -/
theorem matchLoop_total (path : String) :
    ∀ (parts pre segs : List String), parts.length = segs.length →
      ∃ b, matchLoop path (pre ++ segs) pre.length parts = some b := by
  intro parts
  induction parts with
  | nil => intro pre segs _; exact ⟨true, rfl⟩
  | cons p ps ih =>
    intro pre segs hlen
    cases segs with
    | nil => simp at hlen
    | cons seg segs =>
      have hrec := ih (pre ++ [seg]) segs (by simpa using hlen)
      simp only [List.append_assoc, List.singleton_append, List.length_append,
        List.length_singleton] at hrec
      unfold matchLoop
      rw [getElem?_append_length]
      dsimp only
      split_ifs
      · exact hrec
      · exact ⟨false, rfl⟩
      · exact hrec

/-- With `len(path) > 1`, the loop of `matchPath` accepts exactly the segment
lists that agree position by position up to wildcards. -/
theorem matchLoop_spec (path : String) (hlong : path.utf8ByteSize > 1) :
    ∀ (parts pre segs : List String), parts.length = segs.length →
      (matchLoop path (pre ++ segs) pre.length parts = some true ↔
        List.Forall₂ (fun part seg => part = "*" ∨ part = seg) parts segs) := by
  intro parts
  induction parts with
  | nil =>
    intro pre segs hlen
    cases segs with
    | nil => simp [matchLoop]
    | cons _ _ => simp at hlen
  | cons p ps ih =>
    intro pre segs hlen
    cases segs with
    | nil => simp at hlen
    | cons seg segs =>
      have hrec := ih (pre ++ [seg]) segs (by simpa using hlen)
      simp only [List.append_assoc, List.singleton_append, List.length_append,
        List.length_singleton] at hrec
      unfold matchLoop
      rw [getElem?_append_length, List.forall₂_cons]
      dsimp only
      split_ifs with h1 h2
      · rw [hrec]
        simp [h1.1]
      · have hstar : p ≠ "*" := fun h => h1 ⟨h, hlong⟩
        simp [hstar, h2]
      · have heq : p = seg := by
          by_contra hne
          exact h2 hne
        rw [hrec]
        simp [heq]

theorem matchPath_unfold (reserved : List String) (pattern path : String)
    (p1 s1 : String) (hp : (Split pattern)[1]? = some p1) (hs : (Split path)[1]? = some s1) :
    matchPath reserved pattern path =
      if (Split pattern).length ≠ (Split path).length ∨
          ((p1 == "*") = true ∧ Contains reserved s1 = true) then some false
      else matchLoop path (Split path) 0 (Split pattern) := by
  unfold matchPath
  simp only [hp, hs]

/-- No index of `matchPath` is out of range when pattern and path begin with a
slash. -/
theorem matchPath_total (reserved : List String) (pattern path : String)
    (hpat : ∃ cs, pattern.data = '/' :: cs) (hpath : ∃ cs, path.data = '/' :: cs) :
    ∃ b, matchPath reserved pattern path = some b := by
  obtain ⟨cs, hcs⟩ := hpat
  obtain ⟨ds, hds⟩ := hpath
  obtain ⟨p1, prest, hp⟩ := Split_leading_slash pattern cs hcs
  obtain ⟨s1, srest, hs⟩ := Split_leading_slash path ds hds
  rw [matchPath_unfold reserved pattern path p1 s1 (by rw [hp]; simp) (by rw [hs]; simp)]
  split_ifs with h
  · exact ⟨false, rfl⟩
  · have hlen : (Split pattern).length = (Split path).length := by
      by_contra hne
      exact h (Or.inl hne)
    exact matchLoop_total path (Split pattern) [] (Split path) hlen

/-- C14: for a pattern and a path that begin with a slash, with `len(path) > 1`
and the first path segment not reserved, `matchPath` returns a Boolean, and it
returns `true` exactly when pattern and path split into the same number of
segments and every pattern segment is `"*"` or equals the path segment at the
same position (so a `"*"` stands for exactly one segment of the path). -/
theorem matchPath_iff_segments (reserved : List String) (pattern path : String)
    (hpat : ∃ cs, pattern.data = '/' :: cs) (hpath : ∃ cs, path.data = '/' :: cs)
    (hlong : path.utf8ByteSize > 1)
    (hres : ∀ s, (Split path)[1]? = some s → Contains reserved s = false) :
    (∃ b, matchPath reserved pattern path = some b) ∧
    (matchPath reserved pattern path = some true ↔
      (Split pattern).length = (Split path).length ∧
      ∀ (i : Nat) (h₁ : i < (Split pattern).length) (h₂ : i < (Split path).length),
        (Split pattern).get ⟨i, h₁⟩ = "*" ∨
        (Split pattern).get ⟨i, h₁⟩ = (Split path).get ⟨i, h₂⟩) := by
  refine ⟨matchPath_total reserved pattern path hpat hpath, ?_⟩
  obtain ⟨cs, hcs⟩ := hpat
  obtain ⟨ds, hds⟩ := hpath
  obtain ⟨p1, prest, hp⟩ := Split_leading_slash pattern cs hcs
  obtain ⟨s1, srest, hs⟩ := Split_leading_slash path ds hds
  have hs1 : (Split path)[1]? = some s1 := by rw [hs]; simp
  have hget := @List.forall₂_iff_get String String
    (fun part seg => part = "*" ∨ part = seg) (Split pattern) (Split path)
  rw [matchPath_unfold reserved pattern path p1 s1 (by rw [hp]; simp) hs1, ← hget]
  have hnr := hres s1 hs1
  split_ifs with h
  · have hne : (Split pattern).length ≠ (Split path).length := by
      rcases h with h | h
      · exact h
      · rw [hnr] at h
        simp at h
    constructor
    · intro hf
      cases hf
    · intro hf
      exact absurd hf.length_eq hne
  · have hlen : (Split pattern).length = (Split path).length := by
      by_contra hne
      exact h (Or.inl hne)
    exact matchLoop_spec path hlong (Split pattern) [] (Split path) hlen

/-- Witness for C14: the upload pattern against the path of chunk 2 of `abc`. -/
theorem matchPath_iff_segments_witness :
    (∃ b, matchPath [] "/u/*/*" "/u/abc/2" = some b) ∧
    (matchPath [] "/u/*/*" "/u/abc/2" = some true ↔
      (Split "/u/*/*").length = (Split "/u/abc/2").length ∧
      ∀ (i : Nat) (h₁ : i < (Split "/u/*/*").length) (h₂ : i < (Split "/u/abc/2").length),
        (Split "/u/*/*").get ⟨i, h₁⟩ = "*" ∨
        (Split "/u/*/*").get ⟨i, h₁⟩ = (Split "/u/abc/2").get ⟨i, h₂⟩) :=
  matchPath_iff_segments [] "/u/*/*" "/u/abc/2" ⟨_, rfl⟩ ⟨_, rfl⟩ (by decide)
    (fun _ _ => rfl)

/-- C15: when the first segment of the pattern is `"*"` and the first segment of
the path is in the reserved list, `matchPath` returns `false`; when the first
segment of the pattern is not `"*"`, the result of `matchPath` is the same for
every reserved list. -/
theorem matchPath_reserved (reserved : List String) (pattern path : String) :
    (∀ s, (Split pattern)[1]? = some "*" → (Split path)[1]? = some s → s ∈ reserved →
      matchPath reserved pattern path = some false) ∧
    ((Split pattern)[1]? ≠ some "*" →
      ∀ other : List String, matchPath reserved pattern path = matchPath other pattern path) := by
  constructor
  · intro s hp hs hmem
    rw [matchPath_unfold reserved pattern path "*" s hp hs]
    have hc : Contains reserved s = true := by
      unfold Contains
      simpa using hmem
    simp [hc]
  · intro hp other
    cases hp1 : (Split pattern)[1]? with
    | none => simp [matchPath, hp1]
    | some p1 =>
      cases hs1 : (Split path)[1]? with
      | none => simp [matchPath, hp1, hs1]
      | some s1 =>
        rw [matchPath_unfold reserved pattern path p1 s1 hp1 hs1,
          matchPath_unfold other pattern path p1 s1 hp1 hs1]
        have hne : (p1 == "*") = false := by
          rw [beq_eq_false_iff_ne]
          rintro rfl
          exact hp hp1
        simp [hne]

/-- Witness for C15: with `signup` reserved, the bare wildcard does not match
`/signup`, and the literal pattern `/signup` matches as it does without a
reserved list. -/
theorem matchPath_reserved_witness :
    matchPath ["signup"] "/*" "/signup" = some false ∧
    matchPath ["signup"] "/signup" "/signup" = matchPath [] "/signup" "/signup" :=
  ⟨(matchPath_reserved ["signup"] "/*" "/signup").1 "signup" (by decide) (by decide)
      (by decide),
   (matchPath_reserved ["signup"] "/signup" "/signup").2 (by decide) []⟩

/-- C16: with the routes and the (empty) reserved list that `Run` gives the
router, `GET /signup` is accepted both by the route `/signup` and by the bare
wildcard `/*`, and so is `GET /verify`; the handler that `ServeHTTP` invokes then
depends on the order in which the map is visited. -/
theorem Run_routes_overlap :
    (⟨"/*", "GET"⟩, Handler.downloadHTML) ∈ runRoutes ∧
    (⟨"/signup", "GET"⟩, Handler.signupHTML) ∈ runRoutes ∧
    (⟨"/verify", "GET"⟩, Handler.verify) ∈ runRoutes ∧
    matchPath runReserved "/*" "/signup" = some true ∧
    matchPath runReserved "/signup" "/signup" = some true ∧
    matchPath runReserved "/*" "/verify" = some true ∧
    matchPath runReserved "/verify" "/verify" = some true ∧
    ServeHTTP runReserved "GET" "/signup" runRoutes =
      some { invoked := [Handler.downloadHTML], notFound := false } ∧
    ServeHTTP runReserved "GET" "/signup" runRoutes.reverse =
      some { invoked := [Handler.signupHTML], notFound := false } := by
  decide

/-- For a request path and route patterns that begin with a slash, `ServeHTTP`
returns; it invokes at most one handler; a handler it invokes belongs to a
registered route whose method equals the request method and whose pattern
`matchPath` accepts; it answers `404 Not Found` exactly when no registered route
qualifies, and exactly then it invokes no handler. -/
theorem ServeHTTP_spec {H : Type} (reserved : List String) (method path : String)
    (hpath : ∃ cs, path.data = '/' :: cs) (routes : List (Route × H))
    (hpat : ∀ r ∈ routes, ∃ cs, r.1.Path.data = '/' :: cs) :
    ∃ o, ServeHTTP reserved method path routes = some o ∧
      o.invoked.length ≤ 1 ∧
      (∀ h ∈ o.invoked, ∃ el, (el, h) ∈ routes ∧ el.Method = method ∧
        matchPath reserved el.Path path = some true) ∧
      (o.notFound = true ↔ ∀ r ∈ routes,
        ¬ (matchPath reserved r.1.Path path = some true ∧ r.1.Method = method)) ∧
      (o.notFound = true ↔ o.invoked = []) := by
  induction routes with
  | nil =>
    refine ⟨{ invoked := [], notFound := true }, rfl, by simp, by simp, by simp, by simp⟩
  | cons r rest ih =>
    obtain ⟨el, handler⟩ := r
    obtain ⟨b, hb⟩ := matchPath_total reserved el.Path path
      (hpat (el, handler) (by simp)) hpath
    unfold ServeHTTP
    rw [hb]
    dsimp only
    split_ifs with hq
    · refine ⟨_, rfl, by simp, ?_, ?_, by simp⟩
      · intro h hh
        simp only [List.mem_singleton] at hh
        subst hh
        exact ⟨el, by simp, hq.2, by rw [hb, hq.1]⟩
      · simp only [Bool.false_eq_true, false_iff, not_forall]
        exact ⟨(el, handler), by simp, by simp [hb, hq.1, hq.2]⟩
    · obtain ⟨o, ho, h1, h2, h3, h4⟩ := ih (fun r hr => hpat r (List.mem_cons_of_mem _ hr))
      refine ⟨o, ho, h1, ?_, ?_, h4⟩
      · intro h hh
        obtain ⟨el2, hmem, hm, hmatch⟩ := h2 h hh
        exact ⟨el2, List.mem_cons_of_mem _ hmem, hm, hmatch⟩
      · rw [h3]
        constructor
        · intro hall r hr
          rcases List.mem_cons.1 hr with rfl | hr
          · rintro ⟨hm, hmeth⟩
            apply hq
            rw [hb] at hm
            exact ⟨by simpa using hm, hmeth⟩
          · exact hall r hr
        · intro hall r hr
          exact hall r (List.mem_cons_of_mem _ hr)

/-- C17: a request whose `URL.Path` is empty (an absolute-form request line such as
`GET http://localhost:8080 HTTP/1.1`) matches no route, yet `ServeHTTP` does not
answer `404 Not Found`: `strings.Split("", "/")` has one element, so `segments[1]`
in `matchPath` is out of range and the call panics, whatever route is visited
first. -/
theorem ServeHTTP_empty_path_panics :
    Split "" = [""] ∧
    (∀ r ∈ runRoutes, matchPath runReserved r.1.Path "" = none) ∧
    ServeHTTP runReserved "GET" "" runRoutes = none ∧
    ServeHTTP runReserved "GET" "" runRoutes.reverse = none := by
  decide

/-! ## `downloadChunk` and `uploadInit` -/

/-- C18: `downloadChunk` calls `DecrementDownloads` only when the served chunk is
the final one (`eof`), and calls `DeleteFileByID` exactly when, the path having at
least three segments, `eof` holds and the counter returned by the decrement is 0;
so a file whose counter after the decrement is -1 or positive is not deleted. -/
theorem downloadChunk_delete_iff (env : DownloadEnv) (path : String) :
    let segments := Split path
    let metadata := env.RetrieveMetadata (segments.getD (segments.length - 2) "")
    let eof := (env.DownloadFile metadata.B2ID metadata.Length
      (env.Atoi (segments.getD (segments.length - 1) ""))).1
    let rem := env.DecrementDownloads metadata.ID
    let calls := (downloadChunk env path).calls
    ((∃ id, DownloadCall.DecrementDownloads id ∈ calls) → eof = true) ∧
    ((∃ id, DownloadCall.DeleteFileByID id ∈ calls) ↔
      3 ≤ segments.length ∧ eof = true ∧ rem = 0) ∧
    (rem = -1 ∨ rem > 0 → ∀ id, DownloadCall.DeleteFileByID id ∉ calls) ∧
    (∀ id, DownloadCall.DeleteFileByID id ∈ calls → id = metadata.ID) := by
  intro segments metadata eof rem calls
  have hcalls : calls =
      if segments.length < 3 then []
      else if eof = true then
        DownloadCall.DecrementDownloads metadata.ID ::
          (if rem = 0 then [DownloadCall.DeleteFileByID metadata.ID] else [])
      else [] := by
    simp only [calls, downloadChunk]
    split_ifs <;> rfl
  rw [hcalls]
  by_cases h3 : segments.length < 3
  · simp only [h3, if_true]
    refine ⟨by simp, ?_, by simp, by simp⟩
    constructor
    · simp
    · intro h
      omega
  · simp only [h3, if_false]
    by_cases he : eof = true
    · simp only [he, if_true]
      by_cases hr : rem = 0
      · simp only [hr, if_true]
        refine ⟨by simp, ?_, ?_, by simp⟩
        · constructor
          · intro _
            exact ⟨by omega, trivial, trivial⟩
          · intro _
            exact ⟨metadata.ID, by simp⟩
        · intro h
          omega
      · simp only [hr, if_false]
        refine ⟨by simp, by simp, by simp, by simp⟩
    · simp only [he]
      refine ⟨by simp, by simp, by simp, by simp⟩

/-- Witness for C18: the last chunk of an unlimited file (the decrement returns
-1) is served without deleting the file. -/
theorem downloadChunk_delete_iff_witness :
    ∀ id, DownloadCall.DeleteFileByID id ∉ (downloadChunk (lastChunkEnv (-1)) "/d/abc/2").calls :=
  (downloadChunk_delete_iff (lastChunkEnv (-1)) "/d/abc/2").2.2.1 (Or.inl rfl)

/-- C19: once the request body is decoded, `uploadInit` requests exactly one
upload target from the backend: `InitB2Upload` if and only if the declared chunk
count is 1, `InitLargeB2Upload` otherwise, in particular for every count greater
than 1; and when that request succeeds the returned upload URL, token and bucket
or file identifier are recorded on the upload row and the id is returned. -/
theorem uploadInit_one_target (env : UploadEnv) (meta : UploadMetadata) :
    ((uploadInit env (some meta)).calls.filter UploadCall.isInit).length = 1 ∧
    (UploadCall.InitB2Upload ∈ (uploadInit env (some meta)).calls ↔ meta.Chunks = 1) ∧
    (UploadCall.InitLargeB2Upload meta.Name ∈ (uploadInit env (some meta)).calls ↔
      meta.Chunks ≠ 1) ∧
    (meta.Chunks > 1 →
      UploadCall.InitLargeB2Upload meta.Name ∈ (uploadInit env (some meta)).calls) ∧
    (∀ info, (meta.Chunks = 1 ∧ env.InitB2Upload = some info) ∨
        (meta.Chunks ≠ 1 ∧ env.InitLargeB2Upload meta.Name = some info) →
      UploadCall.UpdateUploadValues (env.NewMetadata meta.Chunks meta.Name meta.Salt)
          info.UploadURL info.AuthorizationToken info.ref ∈ (uploadInit env (some meta)).calls ∧
      (uploadInit env (some meta)).status = 200 ∧
      (uploadInit env (some meta)).body = env.NewMetadata meta.Chunks meta.Name meta.Salt) := by
  by_cases h1 : meta.Chunks = 1
  · cases hb : env.InitB2Upload with
    | none =>
      simp [uploadInit, h1, hb, UploadCall.isInit]
    | some info =>
      simp [uploadInit, h1, hb, UploadCall.isInit]
  · cases hb : env.InitLargeB2Upload meta.Name with
    | none =>
      simp [uploadInit, h1, hb, UploadCall.isInit]
    | some info =>
      simp [uploadInit, h1, hb, UploadCall.isInit]

/-- Witness for C19: a three-chunk upload asks for the multi-part target. -/
theorem uploadInit_one_target_witness :
    UploadCall.InitLargeB2Upload threeChunks.Name ∈
      (uploadInit uploadEnv (some threeChunks)).calls :=
  (uploadInit_one_target uploadEnv threeChunks).2.2.2.1 (by decide)

/-! ## `TestDownload` -/

theorem downloadLoop_reads (c : ChunkConsts) (length : Int) (d : Int → Int → Int) :
    ∀ (fuel : Nat) (start : Int),
      (∀ r ∈ downloadLoop c length d fuel start,
        r.first < length - c.KEY_SIZE - 1 ∧
        (r.last = r.first + c.NONCE_SIZE + c.BUFFER_SIZE + c.Overhead ∨
          r.last = length - c.KEY_SIZE - 1)) ∧
      (∀ r, (downloadLoop c length d fuel start).head? = some r → r.first = start) ∧
      List.Chain' (fun r next => next.first = d r.first r.last)
        (downloadLoop c length d fuel start) := by
  intro fuel
  induction fuel with
  | zero =>
    intro start
    simp [downloadLoop]
  | succ n ih =>
    intro start
    unfold downloadLoop
    by_cases hlt : start < length - c.KEY_SIZE - 1
    · simp only [hlt, if_true]
      generalize hE : (if start + (c.NONCE_SIZE + c.BUFFER_SIZE + c.Overhead + start) >
          length - c.KEY_SIZE - 1 then length - c.KEY_SIZE - 1
        else c.NONCE_SIZE + c.BUFFER_SIZE + c.Overhead + start) = e
      have he : e = start + c.NONCE_SIZE + c.BUFFER_SIZE + c.Overhead ∨
          e = length - c.KEY_SIZE - 1 := by
        rw [← hE]
        split_ifs
        · exact Or.inr rfl
        · left
          omega
      obtain ⟨h1, h2, h3⟩ := ih (d start e)
      refine ⟨?_, by simp, ?_⟩
      · intro r hr
        rcases List.mem_cons.1 hr with rfl | hr
        · exact ⟨hlt, he⟩
        · exact h1 r hr
      · rw [List.chain'_cons']
        exact ⟨fun r hr => h2 r hr, h3⟩
    · simp [hlt]

/-- What holds of the reads of `TestDownload` whatever the offsets: the salt is read
first, from `L - KEY_SIZE .. L`; every chunk read starts at the current offset (0
for the first read, then the offset returned by `DecryptChunk`), which is below
`L - KEY_SIZE - 1`, and ends either `NONCE_SIZE + BUFFER_SIZE + Overhead` after
its start or at the inclusive index `L - KEY_SIZE - 1` of the last byte before the
salt; the first read is clamped exactly when a full frame does not fit. -/
theorem TestDownload_reads (c : ChunkConsts) (length : Int) (deriveOk : Bool)
    (DecryptChunk : Int → Int → Int) (fuel : Nat) :
    (TestDownload c length deriveOk DecryptChunk fuel).head? =
      some { first := length - c.KEY_SIZE, last := length } ∧
    (∀ r ∈ (TestDownload c length deriveOk DecryptChunk fuel).tail,
      r.first < length - c.KEY_SIZE - 1 ∧
      (r.last = r.first + c.NONCE_SIZE + c.BUFFER_SIZE + c.Overhead ∨
        r.last = length - c.KEY_SIZE - 1)) ∧
    List.Chain' (fun r next => next.first = DecryptChunk r.first r.last)
      (TestDownload c length deriveOk DecryptChunk fuel).tail ∧
    (deriveOk = true → 0 < fuel → 0 < length - c.KEY_SIZE - 1 →
      (TestDownload c length deriveOk DecryptChunk fuel).tail.head? =
        some { first := 0,
               last := if c.NONCE_SIZE + c.BUFFER_SIZE + c.Overhead > length - c.KEY_SIZE - 1
                 then length - c.KEY_SIZE - 1
                 else c.NONCE_SIZE + c.BUFFER_SIZE + c.Overhead }) := by
  obtain ⟨h1, _, h3⟩ := downloadLoop_reads c length DecryptChunk fuel 0
  refine ⟨rfl, ?_, ?_, ?_⟩
  · intro r hr
    simp only [TestDownload, List.tail_cons] at hr
    split_ifs at hr
    · exact h1 r hr
    · simp at hr
  · simp only [TestDownload, List.tail_cons]
    split_ifs
    · exact h3
    · simp
  · intro hok hfuel hlen
    obtain ⟨n, rfl⟩ : ∃ n, fuel = n + 1 := ⟨fuel - 1, by omega⟩
    simp only [TestDownload, List.tail_cons, hok, if_true, downloadLoop, hlen, add_zero,
      zero_add, List.head?_cons]

/-- C20: the clamp test of `TestDownload` adds `start` twice.  For the object of
length 2665 with `KEY_SIZE = 32` and a frame of `24 + 1220 + 16 = 1260` bytes,
`DecryptChunk` advancing the offset by one frame, the reads are the salt
2633..2665, then 0..1260, 1260..2632 and 2520..2632.  The second chunk read is not
the final one and a full frame would fit (`1260 + 1260 = 2520 ≤ 2632`), yet its
end is clamped to 2632: it spans 1372 bytes instead of 1260 and overlaps the
next read. -/
theorem TestDownload_early_clamp :
    TestDownload smallConsts 2665 true (fun first _ => first + 1260) 5 =
      [{ first := 2633, last := 2665 }, { first := 0, last := 1260 },
       { first := 1260, last := 2632 }, { first := 2520, last := 2632 }] ∧
    smallConsts.NONCE_SIZE + smallConsts.BUFFER_SIZE + smallConsts.Overhead = 1260 ∧
    (1260 : Int) + 1260 ≤ 2665 - smallConsts.KEY_SIZE - 1 ∧
    (2632 : Int) - 1260 ≠ 1260 := by
  decide

/-! ## Repeated runs of `CheckMemberships` -/

theorem rowStep_id (now : Time) : rowStep now (fun u => u) := by
  intro u
  exact ⟨rfl, rfl, rfl, Or.inl rfl, fun h => h⟩

theorem rowStep_comp (now : Time) (g h : UserRow → UserRow)
    (hg : rowStep now g) (hh : rowStep now h) : rowStep now (fun u => h (g u)) := by
  intro u
  obtain ⟨g1, g2, g3, g4, g5⟩ := hg u
  obtain ⟨h1, h2, h3, h4, h5⟩ := hh (g u)
  refine ⟨by rw [h1, g1], by rw [h2, g2], by rw [h3, g3], ?_, fun hu => h5 (g5 hu)⟩
  rcases g4 with g4 | g4
  · rcases h4 with h4 | h4
    · left
      show h (g u) = u
      rw [h4, g4]
    · right
      exact h4
  · right
    exact h5 g4

theorem upgradeFunc_rowStep (execFault : Bool) (now : Time) (ids : List String) (a b : Int) :
    ∃ g, rowStep now g ∧
      (∀ t : Table, (upgradeFunc execFault now t ids a b).1 = t.map g) ∧
      (execFault = false → ∀ u, u.id ∈ ids → (g u).last_upgraded_month = now.Month) := by
  by_cases hempty : ids.isEmpty = true
  · refine ⟨fun u => u, rowStep_id now, ?_, ?_⟩
    · intro t
      simp [upgradeFunc, hempty]
    · intro _ u hu
      have : ids = [] := by simpa using hempty
      rw [this] at hu
      simp at hu
  · by_cases hf : execFault = true
    · refine ⟨fun u => u, rowStep_id now, ?_, ?_⟩
      · intro t
        simp [upgradeFunc, hempty, hf]
      · intro h
        rw [hf] at h
        cases h
    · refine ⟨fun u => if ids.contains u.id then
          { u with send_used := 0, send_available := a, storage_available := b,
                   last_upgraded_month := now.Month } else u, ?_, ?_, ?_⟩
      · intro u
        beta_reduce
        by_cases hc : ids.contains u.id = true
        · rw [if_pos hc]
          exact ⟨rfl, rfl, rfl, Or.inr rfl, fun _ => rfl⟩
        · rw [if_neg hc]
          exact ⟨rfl, rfl, rfl, Or.inl rfl, fun h => h⟩
      · intro t
        simp only [upgradeFunc, hempty, hf]
        rfl
      · intro _ u hu
        have hc : ids.contains u.id = true := by simpa using hu
        beta_reduce
        rw [if_pos hc]

theorem upgradeAll_cons (getProductByTag : String → Option Product) (faults : Faults)
    (now : Time) (e : String × List String) (rest : UpgradeMap) (t : Table) :
    upgradeAll getProductByTag faults now (e :: rest) t =
      upgradeAll getProductByTag faults now rest
        (match getProductByTag e.1 with
         | Option.none => t
         | some product =>
           (upgradeFunc (faults.upgradeExec e.1) now t e.2
             product.SendGBReal product.StorageGBReal).1) := by
  unfold upgradeAll
  rw [List.foldl_cons]

theorem upgradeAll_rowStep (getProductByTag : String → Option Product) (faults : Faults)
    (now : Time) (up : UpgradeMap) :
    ∃ G, rowStep now G ∧
      (∀ t : Table, upgradeAll getProductByTag faults now up t = t.map G) ∧
      (∀ tag x, inUpgradeSet up tag x → effectiveTag getProductByTag faults tag →
        ∀ u, u.id = x → (G u).last_upgraded_month = now.Month) := by
  induction up with
  | nil =>
    refine ⟨fun u => u, rowStep_id now, ?_, ?_⟩
    · intro t
      simp [upgradeAll]
    · rintro tag x ⟨ids, hmem, _⟩
      simp at hmem
  | cons e rest ih =>
    obtain ⟨G, hG, hmap, hstamp⟩ := ih
    cases hp : getProductByTag e.1 with
    | none =>
      refine ⟨G, hG, ?_, ?_⟩
      · intro t
        rw [upgradeAll_cons, hp]
        exact hmap t
      · rintro tag x ⟨ids, hmem, hx⟩ heff u hu
        rcases List.mem_cons.1 hmem with heq | hmem
        · obtain ⟨⟨product, hprod⟩, _⟩ := heff
          rw [← heq] at hp
          rw [hp] at hprod
          cases hprod
        · exact hstamp tag x ⟨ids, hmem, hx⟩ heff u hu
    | some product =>
      obtain ⟨g, hg, hgmap, hgstamp⟩ := upgradeFunc_rowStep (faults.upgradeExec e.1) now e.2
        product.SendGBReal product.StorageGBReal
      refine ⟨fun u => G (g u), rowStep_comp now g G hg hG, ?_, ?_⟩
      · intro t
        rw [upgradeAll_cons, hp]
        dsimp only
        rw [hgmap t, hmap, List.map_map]
        rfl
      · rintro tag x ⟨ids, hmem, hx⟩ heff u hu
        rcases List.mem_cons.1 hmem with heq | hmem
        · have h1 : e.1 = tag := by rw [← heq]
          have h2 : e.2 = ids := by rw [← heq]
          have hfault : faults.upgradeExec e.1 = false := by rw [h1]; exact heff.2
          have := hgstamp hfault u (by rw [h2, hu]; exact hx)
          exact (hG (g u)).2.2.2.2 this
        · exact hstamp tag x ⟨ids, hmem, hx⟩ heff (g u) (by rw [(hg u).1, hu])

theorem CheckMemberships_rowStep (cfg : Config) (getProductByTag : String → Option Product)
    (faults : Faults) (now : Time) (db : Table) (rev : List String) (up : UpgradeMap)
    (hsets : membershipSets faults now db = some (rev, up))
    (hr : faults.revertExec = false) :
    ∃ H, rowStep now H ∧
      CheckMemberships cfg getProductByTag faults now db = db.map H ∧
      (∀ u, u.id ∈ rev → (H u).last_upgraded_month = now.Month) ∧
      (∀ tag x, inUpgradeSet up tag x → effectiveTag getProductByTag faults tag →
        ∀ u, u.id = x → (H u).last_upgraded_month = now.Month) := by
  obtain ⟨g, hg, hgmap, hgstamp⟩ := upgradeFunc_rowStep faults.revertExec now rev
    cfg.DefaultUserSend cfg.DefaultUserStorage
  obtain ⟨G, hG, hmap, hstamp⟩ := upgradeAll_rowStep getProductByTag faults now up
  refine ⟨fun u => G (g u), rowStep_comp now g G hg hG, ?_, ?_, ?_⟩
  · unfold CheckMemberships
    rw [hsets]
    dsimp only
    rw [hgmap db, hmap, List.map_map]
    rfl
  · intro u hu
    exact (hG (g u)).2.2.2.2 (hgstamp hr u hu)
  · intro tag x hin heff u hu
    exact hstamp tag x hin heff (g u) (by rw [(hg u).1, hu])

theorem appendUpgrade_tags (m : UpgradeMap) (tag id : String) :
    ∀ e ∈ appendUpgrade m tag id, e.1 = tag ∨ ∃ e0 ∈ m, e0.1 = e.1 := by
  induction m with
  | nil =>
    intro e he
    simp only [appendUpgrade, List.mem_singleton] at he
    left
    rw [he]
  | cons e0 rest ih =>
    obtain ⟨t0, ids0⟩ := e0
    intro e he
    unfold appendUpgrade at he
    split_ifs at he with heq
    · rcases List.mem_cons.1 he with rfl | he
      · left
        exact heq
      · right
        exact ⟨e, List.mem_cons_of_mem _ he, rfl⟩
    · rcases List.mem_cons.1 he with rfl | he
      · right
        exact ⟨(t0, ids0), by simp, rfl⟩
      · rcases ih e he with h | ⟨e1, h1, h2⟩
        · left
          exact h
        · right
          exact ⟨e1, List.mem_cons_of_mem _ h1, h2⟩

/-- A scan over rows none of which is lapsed, and whose due rows all carry a tag
without effect, leaves the revert set empty and collects only such tags, if it
returns sets at all. -/
theorem scanRows_inert (getProductByTag : String → Option Product) (faults : Faults)
    (now : Time) (rows : List UserRow) :
    ∀ (i : Nat) (up : UpgradeMap) (rev1 : List String) (up1 : UpgradeMap),
      scanRows faults now i rows [] up = some (rev1, up1) →
      (∀ v ∈ rows, lapsed now v.member_expiration = false ∧
        (refreshDue now v.member_expiration = true →
          ¬ effectiveTag getProductByTag faults v.sub_tag)) →
      (∀ e ∈ up, ¬ effectiveTag getProductByTag faults e.1) →
      rev1 = [] ∧ ∀ e ∈ up1, ¬ effectiveTag getProductByTag faults e.1 := by
  induction rows with
  | nil =>
    intro i up rev1 up1 h _ hup
    simp only [scanRows, Option.some.injEq, Prod.mk.injEq] at h
    obtain ⟨rfl, rfl⟩ := h
    exact ⟨rfl, hup⟩
  | cons u rest ih =>
    intro i up rev1 up1 h hrows hup
    obtain ⟨hl, hd⟩ := hrows u (by simp)
    have hrest : ∀ v ∈ rest, lapsed now v.member_expiration = false ∧
        (refreshDue now v.member_expiration = true →
          ¬ effectiveTag getProductByTag faults v.sub_tag) :=
      fun v hv => hrows v (List.mem_cons_of_mem _ hv)
    unfold scanRows at h
    rw [hl] at h
    simp only [Bool.false_eq_true, if_false] at h
    split_ifs at h with hsc hdue
    · apply ih (i + 1) _ rev1 up1 h hrest
      intro e he
      rcases appendUpgrade_tags up u.sub_tag u.id e he with h0 | ⟨e0, h0, h1⟩
      · rw [h0]
        exact hd hdue
      · rw [← h1]
        exact hup e0 h0
    · exact ih (i + 1) up rev1 up1 h hrest hup

theorem upgradeAll_inert (getProductByTag : String → Option Product) (faults : Faults)
    (now : Time) (up : UpgradeMap) :
    ∀ t : Table, (∀ e ∈ up, ¬ effectiveTag getProductByTag faults e.1) →
      upgradeAll getProductByTag faults now up t = t := by
  induction up with
  | nil =>
    intro t _
    rfl
  | cons e rest ih =>
    intro t h
    rw [upgradeAll_cons]
    have hrest : ∀ e0 ∈ rest, ¬ effectiveTag getProductByTag faults e0.1 :=
      fun e0 he0 => h e0 (List.mem_cons_of_mem _ he0)
    have he := h e (by simp)
    cases hp : getProductByTag e.1 with
    | none => exact ih t hrest
    | some product =>
      have hfault : faults.upgradeExec e.1 = true := by
        by_contra hne
        exact he ⟨⟨product, hp⟩, by simpa using hne⟩
      dsimp only
      have : (upgradeFunc (faults.upgradeExec e.1) now t e.2
          product.SendGBReal product.StorageGBReal).1 = t := by
        unfold upgradeFunc
        rw [hfault]
        simp only [if_true]
        split_ifs <;> rfl
      rw [this]
      exact ih t hrest

theorem scanRows_revert_origin (faults : Faults) (now : Time) (rows : List UserRow) :
    ∀ (i : Nat) (rev : List String) (up : UpgradeMap) (rev1 : List String) (up1 : UpgradeMap),
      scanRows faults now i rows rev up = some (rev1, up1) →
      ∀ x ∈ rev1, x ∈ rev ∨ ∃ v ∈ rows, v.id = x := by
  induction rows with
  | nil =>
    intro i rev up rev1 up1 h x hx
    simp only [scanRows, Option.some.injEq, Prod.mk.injEq] at h
    obtain ⟨rfl, rfl⟩ := h
    exact Or.inl hx
  | cons u rest ih =>
    intro i rev up rev1 up1 h x hx
    unfold scanRows at h
    split_ifs at h
    · rcases ih _ _ _ _ _ h x hx with h1 | ⟨v, hv, h1⟩
      · rcases List.mem_append.1 h1 with h2 | h2
        · exact Or.inl h2
        · right
          exact ⟨u, by simp, (List.mem_singleton.1 h2).symm⟩
      · exact Or.inr ⟨v, List.mem_cons_of_mem _ hv, h1⟩
    · rcases ih _ _ _ _ _ h x hx with h1 | ⟨v, hv, h1⟩
      · exact Or.inl h1
      · exact Or.inr ⟨v, List.mem_cons_of_mem _ hv, h1⟩
    · rcases ih _ _ _ _ _ h x hx with h1 | ⟨v, hv, h1⟩
      · exact Or.inl h1
      · exact Or.inr ⟨v, List.mem_cons_of_mem _ hv, h1⟩

/-- With `id` a key of the table, a run of `CheckMemberships` leaves untouched
every row that already carries the month of the run. -/
theorem CheckMemberships_stamped_untouched (cfg : Config)
    (getProductByTag : String → Option Product) (faults : Faults) (now : Time)
    (db : Table) (u : UserRow) (hkey : (db.map (fun v => v.id)).Nodup)
    (hu : u ∈ db) (hst : u.last_upgraded_month = now.Month) :
    findUser (CheckMemberships cfg getProductByTag faults now db) u.id = some u := by
  have hfu := findUser_of_mem_nodup db u hkey hu
  have hnotsel : ∀ v ∈ selectedRows now db, v.id ≠ u.id := by
    intro v hv hid
    have hvdb := (List.mem_filter.1 hv).1
    have hfv := findUser_of_mem_nodup db v hkey hvdb
    rw [hid, hfu] at hfv
    cases hfv
    have := (List.mem_filter.1 hv).2
    simp [hst] at this
  unfold CheckMemberships
  cases hsets : membershipSets faults now db with
  | none => exact hfu
  | some sets =>
    obtain ⟨rev, up⟩ := sets
    dsimp only
    have hrev : u.id ∉ rev := by
      intro hmem
      unfold membershipSets at hsets
      split_ifs at hsets
      rcases scanRows_revert_origin faults now _ _ _ _ _ _ hsets u.id hmem with h1 | ⟨v, hv, h1⟩
      · simp at h1
      · exact hnotsel v hv h1
    have hup : ∀ entry ∈ up, u.id ∉ entry.2 := by
      intro entry he hmem
      obtain ⟨v, hv, hid, _⟩ :=
        (membershipSets_spec faults now db rev up hsets).2.2 entry.1 u.id ⟨entry.2, he, hmem⟩
      exact hnotsel v hv hid
    rw [upgradeAll_findUser_other getProductByTag faults now up u.id _ hup,
      upgradeFunc_findUser_other _ now db rev _ _ u.id hrev]
    exact hfu

theorem mem_selectedRows (now : Time) (db : Table) (u : UserRow) :
    u ∈ selectedRows now db ↔ u ∈ db ∧ u.last_upgraded_month ≠ now.Month := by
  unfold selectedRows
  rw [List.mem_filter]
  simp

/-- C11, as stated, fails: a member whose expiration falls on a 31st is left alone
by a run on 10 June 2025 and refreshed by a second run on 30 June 2025, so the
table after the second run differs from the table after the first. -/
theorem CheckMemberships_same_month_counterexample :
    june10.year = june30.year ∧ june10.month = june30.month ∧
    CheckMemberships meteredCfg catalogue Faults.none june10 members = members ∧
    CheckMemberships meteredCfg catalogue Faults.none june30
        (CheckMemberships meteredCfg catalogue Faults.none june10 members) =
      [{ alice with send_used := 0, send_available := 50, storage_available := 100,
                    last_upgraded_month := 6 }] ∧
    CheckMemberships meteredCfg catalogue Faults.none june30
        (CheckMemberships meteredCfg catalogue Faults.none june10 members) ≠
      CheckMemberships meteredCfg catalogue Faults.none june10 members := by
  decide

theorem CheckMemberships_ids (cfg : Config) (getProductByTag : String → Option Product)
    (faults : Faults) (now : Time) (db : Table) :
    (CheckMemberships cfg getProductByTag faults now db).map (fun v => v.id) =
      db.map (fun v => v.id) := by
  unfold CheckMemberships
  cases hsets : membershipSets faults now db with
  | none => rfl
  | some sets =>
    obtain ⟨rev, up⟩ := sets
    obtain ⟨g, hg, hgmap, _⟩ := upgradeFunc_rowStep faults.revertExec now rev
      cfg.DefaultUserSend cfg.DefaultUserStorage
    obtain ⟨G, hG, hmap, _⟩ := upgradeAll_rowStep getProductByTag faults now up
    dsimp only
    rw [hgmap db, hmap, List.map_map, List.map_map]
    apply List.map_congr_left
    intro u _
    show (G (g u)).id = u.id
    rw [(hG (g u)).1, (hg u).1]

/-- A tier `UPDATE` that fails in the first run and succeeds in the second makes
the second run change the table, at one and the same run time. -/
theorem CheckMemberships_tier_failure_then_success :
    CheckMemberships meteredCfg catalogue tierFailure june30 members = members ∧
    CheckMemberships meteredCfg catalogue Faults.none june30
        (CheckMemberships meteredCfg catalogue tierFailure june30 members) =
      [{ alice with send_used := 0, send_available := 50, storage_available := 100,
                    last_upgraded_month := 6 }] := by
  decide

/-- C11 (amended): take two runs of `CheckMemberships` in the same calendar month,
with no other write in between; configuration, catalogue and database failures may
differ from one run to the other.  If the first run meets no failure of the query,
the scans and the revert update, if every tier update that takes effect in the
second run (product known, `UPDATE` not failing) would also have taken effect in
the first, and if every account has the same lapse and refresh-due classification
at both run times, then the table after the second run equals the table after the
first.  In any case, with `id` a key of the table, every account that carries the
current month in `last_upgraded_month` after the first run is left unchanged by
the second. -/
theorem CheckMemberships_second_run (cfg1 cfg2 : Config)
    (getProductByTag1 getProductByTag2 : String → Option Product)
    (faults1 faults2 : Faults) (now1 now2 : Time) (db : Table)
    (hmonth : now2.Month = now1.Month) :
    (faults1.query = false → (∀ i, faults1.scan i = false) → faults1.revertExec = false →
      (∀ tag, effectiveTag getProductByTag2 faults2 tag →
        effectiveTag getProductByTag1 faults1 tag) →
      (∀ u ∈ db, lapsed now2 u.member_expiration = lapsed now1 u.member_expiration ∧
        refreshDue now2 u.member_expiration = refreshDue now1 u.member_expiration) →
      CheckMemberships cfg2 getProductByTag2 faults2 now2
          (CheckMemberships cfg1 getProductByTag1 faults1 now1 db) =
        CheckMemberships cfg1 getProductByTag1 faults1 now1 db) ∧
    ((db.map (fun v => v.id)).Nodup →
      ∀ u ∈ CheckMemberships cfg1 getProductByTag1 faults1 now1 db,
        u.last_upgraded_month = now1.Month →
        findUser (CheckMemberships cfg2 getProductByTag2 faults2 now2
          (CheckMemberships cfg1 getProductByTag1 faults1 now1 db)) u.id = some u) := by
  constructor
  · intro hq hs hr hmono hsame
    obtain ⟨rev, up, hsets⟩ := membershipSets_some faults1 now1 db hq hs
    obtain ⟨hrev, hdue, _⟩ := membershipSets_spec faults1 now1 db rev up hsets
    obtain ⟨H, hH, hmap, hHrev, hHup⟩ :=
      CheckMemberships_rowStep cfg1 getProductByTag1 faults1 now1 db rev up hsets hr
    rw [hmap]
    have hrows : ∀ v ∈ selectedRows now2 (db.map H),
        lapsed now2 v.member_expiration = false ∧
        (refreshDue now2 v.member_expiration = true →
          ¬ effectiveTag getProductByTag2 faults2 v.sub_tag) := by
      intro v hv
      rw [mem_selectedRows, hmonth] at hv
      obtain ⟨hvmem, hvlum⟩ := hv
      obtain ⟨u, hu, rfl⟩ := List.mem_map.1 hvmem
      have hfix : H u = u := by
        rcases (hH u).2.2.2.1 with h | h
        · exact h
        · exact absurd h hvlum
      rw [hfix] at hvlum ⊢
      have hsel : u ∈ selectedRows now1 db := (mem_selectedRows now1 db u).2 ⟨hu, hvlum⟩
      have hstay : (H u).last_upgraded_month ≠ now1.Month := by rw [hfix]; exact hvlum
      have hl1 : lapsed now1 u.member_expiration = false := by
        cases hl : lapsed now1 u.member_expiration with
        | false => rfl
        | true => exact absurd (hHrev u (hrev u hsel hl)) hstay
      refine ⟨by rw [(hsame u hu).1, hl1], ?_⟩
      intro hd2 heff
      rw [(hsame u hu).2] at hd2
      exact hstay (hHup u.sub_tag u.id (hdue u hsel hl1 hd2) (hmono _ heff) u rfl)
    unfold CheckMemberships
    cases hsets2 : membershipSets faults2 now2 (db.map H) with
    | none => rfl
    | some sets2 =>
      obtain ⟨rev2, up2⟩ := sets2
      have hscan : scanRows faults2 now2 0 (selectedRows now2 (db.map H)) [] [] =
          some (rev2, up2) := by
        unfold membershipSets at hsets2
        split_ifs at hsets2
        exact hsets2
      obtain ⟨hrev2, hup2⟩ := scanRows_inert getProductByTag2 faults2 now2
        (selectedRows now2 (db.map H)) 0 [] rev2 up2 hscan hrows (by simp)
      dsimp only
      rw [upgradeAll_inert getProductByTag2 faults2 now2 up2 _ hup2, hrev2]
      simp [upgradeFunc]
  · intro hkey u hu hst
    apply CheckMemberships_stamped_untouched cfg2 getProductByTag2 faults2 now2 _ u _ hu
      (by rw [hmonth]; exact hst)
    rw [CheckMemberships_ids]
    exact hkey

/-- Witness for C11 (amended): a run at noon and a run in the evening of 30 June
2025, on a table with a lapsed member and an unmetered account. -/
theorem CheckMemberships_second_run_witness :
    CheckMemberships meteredCfg catalogue Faults.none june30evening
        (CheckMemberships meteredCfg catalogue Faults.none june30 formerMembers) =
      CheckMemberships meteredCfg catalogue Faults.none june30 formerMembers ∧
    ∀ u ∈ CheckMemberships meteredCfg catalogue Faults.none june30 formerMembers,
      u.last_upgraded_month = june30.Month →
      findUser (CheckMemberships meteredCfg catalogue Faults.none june30evening
        (CheckMemberships meteredCfg catalogue Faults.none june30 formerMembers)) u.id =
        some u :=
  ⟨(CheckMemberships_second_run meteredCfg meteredCfg catalogue catalogue Faults.none
      Faults.none june30 june30evening formerMembers rfl).1
      rfl (fun _ => rfl) rfl (fun _ h => h) (by decide),
   (CheckMemberships_second_run meteredCfg meteredCfg catalogue catalogue Faults.none
      Faults.none june30 june30evening formerMembers rfl).2 (by decide)⟩

/-! ## Signup -/

theorem IsStructMissingAnyField_iff (fields : List StructField) :
    IsStructMissingAnyField fields = true ↔
      ∃ f ∈ fields, (f.kind = FieldKind.string ∨ f.kind = FieldKind.slice) ∧ f.len = 0 := by
  induction fields with
  | nil => simp [IsStructMissingAnyField]
  | cons f rest ih =>
    unfold IsStructMissingAnyField
    cases hk : f.kind <;> simp only [List.mem_cons, exists_eq_or_imp, hk] <;>
      first
      | (split_ifs with h0
         · simp [h0]
         · simp [h0, ih])
      | simp [ih]

/-- C21: when some string or slice field of the signup struct is empty,
`SignupWithEmail` returns `MissingField` without calling `db.NewVerification` or
`mail.SendVerificationEmail`; and `IsStructMissingAnyField` returns `true` exactly
when some field of kind string or slice has length 0, whatever the fields of
other kinds are. -/
theorem SignupWithEmail_missing_field (env : SignupEnv) (signup : Signup)
    (fields : List StructField) :
    ((∃ f ∈ signup.fields,
        (f.kind = FieldKind.string ∨ f.kind = FieldKind.slice) ∧ f.len = 0) →
      SignupWithEmail env signup = (some SignupError.MissingField, [])) ∧
    (IsStructMissingAnyField fields = true ↔
      ∃ f ∈ fields, (f.kind = FieldKind.string ∨ f.kind = FieldKind.slice) ∧ f.len = 0) := by
  refine ⟨?_, IsStructMissingAnyField_iff fields⟩
  intro h
  have hm := (IsStructMissingAnyField_iff signup.fields).2 h
  unfold SignupWithEmail
  rw [if_pos hm]

/-- Witness for C21: a signup request whose identifier is empty. -/
theorem SignupWithEmail_missing_field_witness :
    SignupWithEmail signupEnv anonymousSignup = (some SignupError.MissingField, []) :=
  (SignupWithEmail_missing_field signupEnv anonymousSignup []).1
    ⟨{ kind := FieldKind.string, len := 0 }, by decide, Or.inl rfl, rfl⟩

/-! ## Index safety of `matchPath` -/

/-- C23: for a pattern and a path that both begin with a slash, `parts[1]` and
`segments[1]` exist and `matchPath` returns a Boolean, no index being out of
range: when the two segment counts differ it returns `false` before the loop, and
when they are equal the loop, the only reader of `segments[i]`, stays in range. -/
theorem matchPath_index_safe (reserved : List String) (pattern path : String)
    (hpat : ∃ cs, pattern.data = '/' :: cs) (hpath : ∃ cs, path.data = '/' :: cs) :
    (∃ p1, (Split pattern)[1]? = some p1) ∧
    (∃ s1, (Split path)[1]? = some s1) ∧
    (∃ b, matchPath reserved pattern path = some b) ∧
    ((Split pattern).length ≠ (Split path).length →
      matchPath reserved pattern path = some false) ∧
    ((Split pattern).length = (Split path).length →
      ∃ b, matchLoop path (Split path) 0 (Split pattern) = some b) := by
  obtain ⟨cs, hcs⟩ := hpat
  obtain ⟨ds, hds⟩ := hpath
  obtain ⟨p1, prest, hp⟩ := Split_leading_slash pattern cs hcs
  obtain ⟨s1, srest, hs⟩ := Split_leading_slash path ds hds
  have hp1 : (Split pattern)[1]? = some p1 := by rw [hp]; simp
  have hs1 : (Split path)[1]? = some s1 := by rw [hs]; simp
  refine ⟨⟨p1, hp1⟩, ⟨s1, hs1⟩,
    matchPath_total reserved pattern path ⟨cs, hcs⟩ ⟨ds, hds⟩, ?_, ?_⟩
  · intro hne
    rw [matchPath_unfold reserved pattern path p1 s1 hp1 hs1, if_pos (Or.inl hne)]
  · intro hlen
    exact matchLoop_total path (Split pattern) [] (Split path) hlen

/-- Witness for C23: the download pattern against a path with fewer segments. -/
theorem matchPath_index_safe_witness :
    (∃ p1, (Split "/d/*/*")[1]? = some p1) ∧
    (∃ s1, (Split "/d/abc")[1]? = some s1) ∧
    (∃ b, matchPath [] "/d/*/*" "/d/abc" = some b) ∧
    ((Split "/d/*/*").length ≠ (Split "/d/abc").length →
      matchPath [] "/d/*/*" "/d/abc" = some false) ∧
    ((Split "/d/*/*").length = (Split "/d/abc").length →
      ∃ b, matchLoop "/d/abc" (Split "/d/abc") 0 (Split "/d/*/*") = some b) :=
  matchPath_index_safe [] "/d/*/*" "/d/abc" ⟨_, rfl⟩ ⟨_, rfl⟩

/-! ## `ObscureEmail` -/

theorem splitOnChar_length (sep : Char) (cs : List Char) :
    (splitOnChar sep cs).length = cs.count sep + 1 := by
  induction cs with
  | nil => rfl
  | cons c cs ih =>
    unfold splitOnChar
    by_cases h : c = sep
    · subst h
      simp [ih]
    · rw [if_neg h]
      have hc : (c :: cs).count sep = cs.count sep := by
        rw [List.count_cons]
        simp [h]
      rw [hc, ← ih]
      cases hsp : splitOnChar sep cs with
      | nil =>
        rw [hsp] at ih
        simp at ih
      | cons seg rest => simp

/-- `ObscureEmail` returns the error `"invalid email"` exactly when its input does
not contain exactly one `@`. -/
theorem ObscureEmail_invalid_iff (email : String) :
    ObscureEmail email = some Obscured.invalidEmail ↔ email.data.count '@' ≠ 1 := by
  have hlen := splitOnChar_length '@' email.data
  unfold ObscureEmail
  generalize splitOnChar '@' email.data = segs at hlen
  match segs, hlen with
  | [], hlen => simp at hlen
  | [a], hlen =>
    simp only [List.length_singleton] at hlen
    simp only [List.map_cons, List.map_nil]
    constructor
    · intro _
      omega
    · intro _
      trivial
  | [a, b], hlen =>
    simp only [List.length_cons, List.length_nil] at hlen
    simp only [List.map_cons, List.map_nil]
    constructor
    · intro h
      exfalso
      revert h
      split_ifs <;> split <;> simp
    · intro h
      omega
  | a :: b :: c :: rest, hlen =>
    simp only [List.length_cons] at hlen
    simp only [List.map_cons]
    constructor
    · intro _
      omega
    · intro _
      trivial

/-- C24: an input with exactly one `@` and an empty local part, or an empty
domain, makes `ObscureEmail` panic (`address[0]`, respectively `domain[0]`, is out
of range) instead of returning an obscured address. -/
theorem ObscureEmail_empty_part_panics :
    "@example.com".data.count '@' = 1 ∧ ObscureEmail "@example.com" = none ∧
    "user@".data.count '@' = 1 ∧ ObscureEmail "user@" = none ∧
    ObscureEmail "user@example.com" = some (Obscured.hidden "us***r@e***.com") := by
  decide

/-! ## `StrToDuration` -/

theorem goBytesOf_append (a b : List Char) :
    goBytesOf (a ++ b) = goBytesOf a ++ goBytesOf b := by
  induction a with
  | nil => rfl
  | cons c cs ih => simp [goBytesOf, ih]

theorem goBytesOf_digits (ds : List Char) (h : ∀ d ∈ ds, 48 ≤ d.toNat ∧ d.toNat ≤ 57) :
    goBytesOf ds = ds.map Char.toNat := by
  induction ds with
  | nil => rfl
  | cons c cs ih =>
    have hc := h c (by simp)
    have h7 : c.toNat ≤ 0x7f := by omega
    simp only [goBytesOf, utf8EncodeNat, h7, if_true, List.map_cons, List.singleton_append]
    rw [ih (fun d hd => h d (List.mem_cons_of_mem _ hd))]

theorem utf8EncodeNat_last (c : Nat) :
    ∃ init u, utf8EncodeNat c = init ++ [u] ∧
      ((c ≤ 127 ∧ init = [] ∧ u = c) ∨ (127 < c ∧ 128 ≤ u)) := by
  unfold utf8EncodeNat
  split_ifs with h1 h2 h3
  · exact ⟨[], c, rfl, Or.inl ⟨h1, rfl, rfl⟩⟩
  · exact ⟨[0xc0 + c / 64], 0x80 + c % 64, rfl, Or.inr ⟨by omega, by omega⟩⟩
  · exact ⟨[0xe0 + c / 4096, 0x80 + (c / 64) % 64], 0x80 + c % 64, rfl,
      Or.inr ⟨by omega, by omega⟩⟩
  · exact ⟨[0xf0 + c / 262144, 0x80 + (c / 4096) % 64, 0x80 + (c / 64) % 64],
      0x80 + c % 64, rfl, Or.inr ⟨by omega, by omega⟩⟩

theorem decimal_foldl_ge (ds : List Char) :
    ∀ n : Nat, n ≤ ds.foldl (fun n d => n * 10 + (d.toNat - 48)) n := by
  induction ds with
  | nil => intro n; exact le_refl n
  | cons d ds ih =>
    intro n
    rw [List.foldl_cons]
    exact le_trans (by omega) (ih _)

theorem parseUintLoop_digits (ds : List Char) (h : ∀ d ∈ ds, 48 ≤ d.toNat ∧ d.toNat ≤ 57) :
    ∀ n : Nat, ds.foldl (fun n d => n * 10 + (d.toNat - 48)) n ≤ 2 ^ 64 - 1 →
      parseUintLoop (ds.map Char.toNat) n =
        UintParse.ok (ds.foldl (fun n d => n * 10 + (d.toNat - 48)) n) := by
  induction ds with
  | nil => intro n _; rfl
  | cons d ds ih =>
    intro n hb
    have hd := h d (by simp)
    rw [List.foldl_cons] at hb ⊢
    have hstep := decimal_foldl_ge ds (n * 10 + (d.toNat - 48))
    have hnot : ¬ (d.toNat < 48 ∨ 57 < d.toNat) := by omega
    have hfit : ¬ (n * 10 + (d.toNat - 48) > 2 ^ 64 - 1) := by omega
    simp only [List.map_cons, parseUintLoop, hnot, hfit, if_false]
    exact ih (fun c hc => h c (List.mem_cons_of_mem _ hc)) _ hb

/-- On a decimal number below `2^63`, `strconv.Atoi` returns its value. -/
theorem Atoi_digits (ds : List Char) (hdec : isDecimal ds) (hN : decimalValue ds < 2 ^ 63) :
    Atoi (ds.map Char.toNat) = (decimalValue ds : Int) := by
  obtain ⟨hne, hd⟩ := hdec
  obtain ⟨d, rest, rfl⟩ := List.exists_cons_of_ne_nil hne
  have hd0 := hd d (by simp)
  have hparse := parseUintLoop_digits (d :: rest) hd 0 (by
    unfold decimalValue at hN
    omega)
  have h43 : ¬ d.toNat = 43 := by omega
  have h45 : ¬ d.toNat = 45 := by omega
  have hge : ¬ decimalValue (d :: rest) ≥ 2 ^ 63 := by omega
  have hhead : (List.map Char.toNat (d :: rest)).head? = some d.toNat := rfl
  have hnil : ¬ List.map Char.toNat (d :: rest) = [] := by simp
  unfold Atoi
  simp only [hhead, Option.some.injEq, h43, h45, or_self, if_false, decide_False,
    Bool.false_eq_true, hnil, hparse]
  unfold decimalValue at hge ⊢
  rw [if_neg hge]

theorem wrap64_id (x : Int) (h1 : -(2 ^ 63) ≤ x) (h2 : x < 2 ^ 63) : wrap64 x = x := by
  unfold wrap64
  rw [Int.emod_eq_of_lt (by omega) (by omega)]
  omega

/-- Bytes of a string made of digits and one more character: the last byte, and
what precedes it. -/
theorem digits_unit_bytes (ds : List Char) (c : Char)
    (hd : ∀ d ∈ ds, 48 ≤ d.toNat ∧ d.toNat ≤ 57) :
    ∃ init u, goBytes (String.mk (ds ++ [c])) = (ds.map Char.toNat ++ init) ++ [u] ∧
      ((c.toNat ≤ 127 ∧ init = [] ∧ u = c.toNat) ∨ (127 < c.toNat ∧ 128 ≤ u)) := by
  obtain ⟨init, u, hu, hcase⟩ := utf8EncodeNat_last c.toNat
  refine ⟨init, u, ?_, hcase⟩
  unfold goBytes
  rw [goBytesOf_append, goBytesOf_digits ds hd]
  simp only [goBytesOf, List.append_nil, hu, List.append_assoc]

theorem StrToDuration_unfold (ds : List Char) (c : Char) (isDebug : Bool)
    (init : List Nat) (u : Nat)
    (hb : goBytes (String.mk (ds ++ [c])) = (ds.map Char.toNat ++ init) ++ [u]) :
    StrToDuration (String.mk (ds ++ [c])) isDebug =
      if u = 100 then
        some (wrap64 (wrap64 (Atoi (ds.map Char.toNat ++ init) * Hour) * 24))
      else if u = 104 then some (wrap64 (Atoi (ds.map Char.toNat ++ init) * Hour))
      else if u = 109 then some (wrap64 (Atoi (ds.map Char.toNat ++ init) * Minute))
      else if u = 115 then
        if (!isDebug) = true then some Minute
        else some (wrap64 (Atoi (ds.map Char.toNat ++ init) * Second))
      else some 0 := by
  unfold StrToDuration
  simp only [hb, List.getLast?_concat, List.dropLast_concat]

/-- C25, as stated, fails: `"200000d"` is the decimal number 200000 followed by
`d`, but 200000 days exceed the range of `time.Duration`; the 64-bit product wraps
around and `StrToDuration` returns a negative duration. -/
theorem StrToDuration_overflow_counterexample :
    decimalValue "200000".data = 200000 ∧
    StrToDuration "200000d" false = some (-1166744073709551616) ∧
    (200000 : Int) * 24 * Hour = 17280000000000000000 ∧
    (17280000000000000000 : Int) > maxDuration := by
  decide

/-- C25 (amended): for a string made of a decimal number `N` followed by one unit
character, `StrToDuration` returns `N × 24` hours for `d`, `N` hours for `h`, `N`
minutes for `m` and, in debug mode, `N` seconds for `s`, provided that duration
does not exceed the largest `time.Duration`; for `s` outside debug mode it returns
one minute, and for any other unit character 0, whatever `N` is. -/
theorem StrToDuration_decimal (ds : List Char) (c : Char) (isDebug : Bool)
    (hdec : isDecimal ds) :
    (c = 'd' → (decimalValue ds : Int) * 24 * Hour ≤ maxDuration →
      StrToDuration (String.mk (ds ++ [c])) isDebug =
        some ((decimalValue ds : Int) * 24 * Hour)) ∧
    (c = 'h' → (decimalValue ds : Int) * Hour ≤ maxDuration →
      StrToDuration (String.mk (ds ++ [c])) isDebug = some ((decimalValue ds : Int) * Hour)) ∧
    (c = 'm' → (decimalValue ds : Int) * Minute ≤ maxDuration →
      StrToDuration (String.mk (ds ++ [c])) isDebug =
        some ((decimalValue ds : Int) * Minute)) ∧
    (c = 's' → isDebug = true → (decimalValue ds : Int) * Second ≤ maxDuration →
      StrToDuration (String.mk (ds ++ [c])) isDebug =
        some ((decimalValue ds : Int) * Second)) ∧
    (c = 's' → isDebug = false →
      StrToDuration (String.mk (ds ++ [c])) isDebug = some Minute) ∧
    (c ≠ 'd' → c ≠ 'h' → c ≠ 'm' → c ≠ 's' →
      StrToDuration (String.mk (ds ++ [c])) isDebug = some 0) := by
  obtain ⟨init, u, hb, hcase⟩ := digits_unit_bytes ds c hdec.2
  have hun := StrToDuration_unfold ds c isDebug init u hb
  have hN : (0 : Int) ≤ (decimalValue ds : Int) := Int.ofNat_nonneg _
  have hascii : ∀ k : Nat, k ≤ 127 → c.toNat = k →
      u = k ∧ Atoi (ds.map Char.toNat ++ init) = Atoi (ds.map Char.toNat) := by
    intro k hk hc
    rcases hcase with ⟨_, hi, hu⟩ | ⟨h, _⟩
    · rw [hi, List.append_nil, hu, hc]
      exact ⟨rfl, rfl⟩
    · omega
  refine ⟨?_, ?_, ?_, ?_, ?_, ?_⟩
  · intro hc hfit
    obtain ⟨hu, hat⟩ := hascii 100 (by omega) (by rw [hc]; rfl)
    simp only [Hour, Minute, Second, maxDuration] at hfit ⊢
    rw [hun, hat, Atoi_digits ds hdec (by omega), if_pos hu]
    simp only [Hour, Minute, Second]
    rw [wrap64_id ((decimalValue ds : Int) * (60 * (60 * 1000000000))) (by omega) (by omega),
      wrap64_id _ (by omega) (by omega)]
    congr 1
    omega
  · intro hc hfit
    obtain ⟨hu, hat⟩ := hascii 104 (by omega) (by rw [hc]; rfl)
    simp only [Hour, Minute, Second, maxDuration] at hfit ⊢
    rw [hun, hat, Atoi_digits ds hdec (by omega), if_neg (by omega), if_pos hu]
    simp only [Hour, Minute, Second]
    rw [wrap64_id _ (by omega) (by omega)]
  · intro hc hfit
    obtain ⟨hu, hat⟩ := hascii 109 (by omega) (by rw [hc]; rfl)
    simp only [Hour, Minute, Second, maxDuration] at hfit ⊢
    rw [hun, hat, Atoi_digits ds hdec (by omega), if_neg (by omega), if_neg (by omega),
      if_pos hu]
    simp only [Hour, Minute, Second]
    rw [wrap64_id _ (by omega) (by omega)]
  · intro hc hdbg hfit
    obtain ⟨hu, hat⟩ := hascii 115 (by omega) (by rw [hc]; rfl)
    simp only [Hour, Minute, Second, maxDuration] at hfit ⊢
    rw [hun, hat, Atoi_digits ds hdec (by omega), if_neg (by omega), if_neg (by omega),
      if_neg (by omega), if_pos hu, hdbg]
    simp only [Bool.not_true, Bool.false_eq_true, if_false, Second]
    rw [wrap64_id _ (by omega) (by omega)]
  · intro hc hdbg
    obtain ⟨hu, _⟩ := hascii 115 (by omega) (by rw [hc]; rfl)
    rw [hun, if_neg (by omega), if_neg (by omega), if_neg (by omega), if_pos hu, hdbg]
    simp
  · intro h1 h2 h3 h4
    have hne : ∀ k : Nat, k ≤ 127 → c ≠ Char.ofNat k → u ≠ k := by
      intro k hk hck huk
      rcases hcase with ⟨_, _, hu⟩ | ⟨_, h⟩
      · apply hck
        rw [← huk, hu, Char.ofNat_toNat]
      · omega
    rw [hun, if_neg (hne 100 (by omega) h1), if_neg (hne 104 (by omega) h2),
      if_neg (hne 109 (by omega) h3), if_neg (hne 115 (by omega) h4)]

/-- Witness for C25 (amended): five days. -/
theorem StrToDuration_decimal_witness :
    StrToDuration (String.mk (['5'] ++ ['d'])) false =
      some ((decimalValue ['5'] : Int) * 24 * Hour) :=
  (StrToDuration_decimal ['5'] 'd' false ⟨by decide, by decide⟩).1 rfl (by decide)

/-! ## Two charges against one account

Each charge sends one `UPDATE ... RETURNING` statement, which the database runs
atomically; two concurrent charges therefore act on the table as the two
statements in one order or the other. -/

theorem chargeStorage_twice_exceeds (a1 a2 : Int) (u : UserRow)
    (hav : u.storage_available > 0)
    (hsum : u.storage_used + a1 + a2 > u.storage_available) :
    (chargeStorage a2 (chargeStorage a1 u)).storage_used >
      (chargeStorage a2 (chargeStorage a1 u)).storage_available := by
  unfold chargeStorage
  dsimp only
  split_ifs <;> omega

theorem chargeSend_twice_exceeds (s1 s2 : Int) (u : UserRow)
    (hav : u.send_available > 0)
    (hsum : u.send_used + s1 + s2 > u.send_available) :
    (chargeSend s2 (chargeSend s1 u)).send_used >
      (chargeSend s2 (chargeSend s1 u)).send_available := by
  unfold chargeSend
  dsimp only
  split_ifs <;> omega

theorem storage_second_charge_refused (cfg : Config) (db : Table) (userID : String)
    (a1 a2 : Int) (u : UserRow) (hfind : findUser db userID = some u)
    (hav : u.storage_available > 0) (hcfg : cfg.DefaultUserStorage > 0) (ha2 : a2 > 0)
    (hsum : u.storage_used + a1 + a2 > u.storage_available) :
    (UpdateStorageUsed cfg none (UpdateStorageUsed cfg none db userID a1).1 userID a2).2 =
      some Error.UserStorageExceeded := by
  obtain ⟨h1, _⟩ := UpdateStorageUsed_findUser cfg db userID a1 u hfind hav
  obtain ⟨_, h2⟩ := UpdateStorageUsed_findUser cfg
    (UpdateStorageUsed cfg none db userID a1).1 userID a2 (chargeStorage a1 u) h1 hav
  have herr := UpdateStorageUsed_err cfg (UpdateStorageUsed cfg none db userID a1).1 userID a2
  rw [h2] at herr
  dsimp only at herr
  rw [if_pos ⟨chargeStorage_twice_exceeds a1 a2 u hav hsum, ha2, hcfg⟩] at herr
  exact herr

theorem send_second_charge_refused (db : Table) (id : String)
    (s1 s2 : Int) (u : UserRow) (hfind : findUser db id = some u)
    (hav : u.send_available > 0)
    (hsum : u.send_used + s1 + s2 > u.send_available) :
    (UpdateUserSendUsed none (UpdateUserSendUsed none db id s1).1 id s2).2 =
      some Error.UserSendExceeded := by
  obtain ⟨h1, _⟩ := UpdateUserSendUsed_findUser db id s1 u hfind hav
  obtain ⟨_, h2⟩ := UpdateUserSendUsed_findUser
    (UpdateUserSendUsed none db id s1).1 id s2 (chargeSend s1 u) h1 hav
  have herr := UpdateUserSendUsed_err (UpdateUserSendUsed none db id s1).1 id s2
  rw [h2] at herr
  dsimp only at herr
  rw [if_pos (chargeSend_twice_exceeds s1 s2 u hav hsum)] at herr
  exact herr

/-- C22, as stated, fails: with `DefaultUserStorage = 0`, two storage charges of 6
bytes against an account with 10 bytes available and none used both return `nil`,
in whatever order the two statements run, and leave 12 bytes used; each of them
alone stays within the quota. -/
theorem both_storage_charges_succeed_counterexample :
    alice.storage_available = 10 ∧ alice.storage_used + 6 ≤ alice.storage_available ∧
    alice.storage_used + 6 + 6 > alice.storage_available ∧
    UpdateStorageUsed defaultCfg none [alice] "alice" 6 =
      ([{ alice with storage_used := 6 }], none) ∧
    UpdateStorageUsed defaultCfg none [{ alice with storage_used := 6 }] "alice" 6 =
      ([{ alice with storage_used := 12 }], none) := by
  decide

/-- C22 (amended): two charges against the same account, run as two atomic
statements in either order, do not both return `nil` when together they exceed
the available quota: for `UpdateStorageUsed` on an account with
`storage_available > 0`, with positive amounts, provided `DefaultUserStorage > 0`;
and for `UpdateUserSendUsed` on an account with `send_available > 0`. -/
theorem two_charges_not_both_succeed (cfg : Config) (db : Table) (userID : String)
    (a1 a2 : Int) (f1 f2 : Option String) (u : UserRow)
    (hfind : findUser db userID = some u) :
    (u.storage_available > 0 → cfg.DefaultUserStorage > 0 → a1 > 0 → a2 > 0 →
      u.storage_used + a1 + a2 > u.storage_available →
      ¬ ((UpdateStorageUsed cfg f1 db userID a1).2 = none ∧
          (UpdateStorageUsed cfg f2 (UpdateStorageUsed cfg f1 db userID a1).1
            userID a2).2 = none) ∧
      ¬ ((UpdateStorageUsed cfg f2 db userID a2).2 = none ∧
          (UpdateStorageUsed cfg f1 (UpdateStorageUsed cfg f2 db userID a2).1
            userID a1).2 = none)) ∧
    (u.send_available > 0 → u.send_used + a1 + a2 > u.send_available →
      ¬ ((UpdateUserSendUsed f1 db userID a1).2 = none ∧
          (UpdateUserSendUsed f2 (UpdateUserSendUsed f1 db userID a1).1 userID a2).2 = none) ∧
      ¬ ((UpdateUserSendUsed f2 db userID a2).2 = none ∧
          (UpdateUserSendUsed f1 (UpdateUserSendUsed f2 db userID a2).1 userID a1).2 = none)) := by
  have hstorage : ∀ (x y : Int) (g1 g2 : Option String), u.storage_available > 0 →
      cfg.DefaultUserStorage > 0 → y > 0 → u.storage_used + x + y > u.storage_available →
      ¬ ((UpdateStorageUsed cfg g1 db userID x).2 = none ∧
          (UpdateStorageUsed cfg g2 (UpdateStorageUsed cfg g1 db userID x).1
            userID y).2 = none) := by
    rintro x y g1 g2 hav hcfg hy hsum ⟨h1, h2⟩
    cases g1 with
    | some e => simp [UpdateStorageUsed] at h1
    | none =>
      cases g2 with
      | some e => simp [UpdateStorageUsed] at h2
      | none =>
        rw [storage_second_charge_refused cfg db userID x y u hfind hav hcfg hy hsum] at h2
        cases h2
  have hsend : ∀ (x y : Int) (g1 g2 : Option String), u.send_available > 0 →
      u.send_used + x + y > u.send_available →
      ¬ ((UpdateUserSendUsed g1 db userID x).2 = none ∧
          (UpdateUserSendUsed g2 (UpdateUserSendUsed g1 db userID x).1 userID y).2 = none) := by
    rintro x y g1 g2 hav hsum ⟨h1, h2⟩
    cases g1 with
    | some e => simp [UpdateUserSendUsed] at h1
    | none =>
      cases g2 with
      | some e => simp [UpdateUserSendUsed] at h2
      | none =>
        rw [send_second_charge_refused db userID x y u hfind hav hsum] at h2
        cases h2
  constructor
  · intro hav hcfg ha1 ha2 hsum
    exact ⟨hstorage a1 a2 f1 f2 hav hcfg ha2 hsum,
      hstorage a2 a1 f2 f1 hav hcfg ha1 (by omega)⟩
  · intro hav hsum
    exact ⟨hsend a1 a2 f1 f2 hav hsum, hsend a2 a1 f2 f1 hav (by omega)⟩

/-- Witness for C22 (amended): two charges of 6 bytes against 10 bytes available,
with metering switched on. -/
theorem two_charges_not_both_succeed_witness :
    (¬ ((UpdateStorageUsed meteredCfg none [alice] "alice" 6).2 = none ∧
          (UpdateStorageUsed meteredCfg none
            (UpdateStorageUsed meteredCfg none [alice] "alice" 6).1 "alice" 6).2 = none) ∧
      ¬ ((UpdateStorageUsed meteredCfg none [alice] "alice" 6).2 = none ∧
          (UpdateStorageUsed meteredCfg none
            (UpdateStorageUsed meteredCfg none [alice] "alice" 6).1 "alice" 6).2 = none)) ∧
    (¬ ((UpdateUserSendUsed none [alice] "alice" 6).2 = none ∧
          (UpdateUserSendUsed none
            (UpdateUserSendUsed none [alice] "alice" 6).1 "alice" 6).2 = none) ∧
      ¬ ((UpdateUserSendUsed none [alice] "alice" 6).2 = none ∧
          (UpdateUserSendUsed none
            (UpdateUserSendUsed none [alice] "alice" 6).1 "alice" 6).2 = none)) :=
  ⟨(two_charges_not_both_succeed meteredCfg [alice] "alice" 6 6 none none alice
      (by decide)).1 (by decide) (by decide) (by decide) (by decide) (by decide),
   (two_charges_not_both_succeed meteredCfg [alice] "alice" 6 6 none none alice
      (by decide)).2 (by decide) (by decide)⟩

end YeetFile
